import Mathlib

/-!
Verification development for the pylabels repository.

The dimension solver (`labels/specifications.py`, class `Specification`) is
embedded over `ℚ`: the source stores all measurements as Python `Decimal`
values, whose additions, subtractions and integer multiplications are exact;
we model the single division (`hspace / hcount`) exactly as rational division.
The mutable `Specification` object is a `SpecState` record, and the
`_calculate` method becomes `calculate : SpecState → SpecState × Option
CalcError`, where an error result carries the state of the object at the
point the exception was raised (Python leaves the partially mutated object
behind when `_calculate` raises).

The sheet engine (`labels/sheet.py`, class `Sheet`) is embedded as a state
machine `SheetState` further below.
-/

set_option autoImplicit false

namespace Pylabels

/-- The six optional margin/gap attributes of a `Specification`
(the ones that participate in `_autoset`). -/
inductive MField
  | leftMargin | columnGap | rightMargin | topMargin | rowGap | bottomMargin
  deriving DecidableEq, Repr

/-- The always-present rational-valued attributes of a `Specification`. -/
inductive QField
  | sheetWidth | sheetHeight | labelWidth | labelHeight
  | cornerRadius | paddingRadius
  | leftPadding | rightPadding | topPadding | bottomPadding
  deriving DecidableEq, Repr

/-- The integer attributes of a `Specification`. -/
inductive ZField
  | columns | rows
  deriving DecidableEq, Repr

/-- The distinct `InvalidDimension` exceptions `_calculate` can raise,
one constructor per `raise` site in `specifications.py`. -/
inductive CalcError
  | notPositive (f : ZField ⊕ QField)
  | marginNegative (f : MField)
  | paddingNegative (f : QField)
  | cornerRadiusNegative
  | cornerRadiusWidth
  | cornerRadiusHeight
  | paddingRadiusNonzero
  | paddingTooWide
  | paddingTooTall
  | paddingRadiusNeg
  | tooWide
  | tooTall
  | leftMarginTooWide
  | columnGapTooWide
  | rightMarginTooWide
  | topMarginTooTall
  | rowGapTooTall
  | bottomMarginTooTall
  | widthNotFullyUsed
  | heightNotFullyUsed
  deriving DecidableEq, Repr

/-- The state of a `Specification` object: required dimensions, the six
optional margins/gaps (`none` = not currently set), paddings, radii, and the
`_autoset` set tracking which margin attributes were automatically computed. -/
structure SpecState where
  sheet_width : ℚ
  sheet_height : ℚ
  columns : ℤ
  rows : ℤ
  label_width : ℚ
  label_height : ℚ
  left_margin : Option ℚ
  column_gap : Option ℚ
  right_margin : Option ℚ
  top_margin : Option ℚ
  row_gap : Option ℚ
  bottom_margin : Option ℚ
  left_padding : ℚ
  right_padding : ℚ
  top_padding : ℚ
  bottom_padding : ℚ
  corner_radius : ℚ
  padding_radius : ℚ
  autoset : Finset MField
  deriving DecidableEq

/-- Read one of the six optional margin attributes. -/
def getM (s : SpecState) : MField → Option ℚ
  | .leftMargin => s.left_margin
  | .columnGap => s.column_gap
  | .rightMargin => s.right_margin
  | .topMargin => s.top_margin
  | .rowGap => s.row_gap
  | .bottomMargin => s.bottom_margin

/-- Write one of the six optional margin attributes. -/
def setM (s : SpecState) (f : MField) (v : Option ℚ) : SpecState :=
  match f with
  | .leftMargin => { s with left_margin := v }
  | .columnGap => { s with column_gap := v }
  | .rightMargin => { s with right_margin := v }
  | .topMargin => { s with top_margin := v }
  | .rowGap => { s with row_gap := v }
  | .bottomMargin => { s with bottom_margin := v }

/-- Read a required rational attribute. -/
def getQ (s : SpecState) : QField → ℚ
  | .sheetWidth => s.sheet_width
  | .sheetHeight => s.sheet_height
  | .labelWidth => s.label_width
  | .labelHeight => s.label_height
  | .cornerRadius => s.corner_radius
  | .paddingRadius => s.padding_radius
  | .leftPadding => s.left_padding
  | .rightPadding => s.right_padding
  | .topPadding => s.top_padding
  | .bottomPadding => s.bottom_padding

/-- Write a required rational attribute. -/
def setQ (s : SpecState) (f : QField) (v : ℚ) : SpecState :=
  match f with
  | .sheetWidth => { s with sheet_width := v }
  | .sheetHeight => { s with sheet_height := v }
  | .labelWidth => { s with label_width := v }
  | .labelHeight => { s with label_height := v }
  | .cornerRadius => { s with corner_radius := v }
  | .paddingRadius => { s with padding_radius := v }
  | .leftPadding => { s with left_padding := v }
  | .rightPadding => { s with right_padding := v }
  | .topPadding => { s with top_padding := v }
  | .bottomPadding => { s with bottom_padding := v }

/-- Read an integer attribute. -/
def getZ (s : SpecState) : ZField → ℤ
  | .columns => s.columns
  | .rows => s.rows

/-- Write an integer attribute. -/
def setZ (s : SpecState) (f : ZField) (v : ℤ) : SpecState :=
  match f with
  | .columns => { s with columns := v }
  | .rows => { s with rows := v }

/-- `specifications.py` lines 142-146: every compulsory dimension must be
strictly positive, checked in the source's tuple order. -/
def checkPositive (s : SpecState) : Option CalcError :=
  if s.sheet_width ≤ 0 then some (.notPositive (.inr .sheetWidth))
  else if s.sheet_height ≤ 0 then some (.notPositive (.inr .sheetHeight))
  else if s.columns ≤ 0 then some (.notPositive (.inl .columns))
  else if s.rows ≤ 0 then some (.notPositive (.inl .rows))
  else if s.label_width ≤ 0 then some (.notPositive (.inr .labelWidth))
  else if s.label_height ≤ 0 then some (.notPositive (.inr .labelHeight))
  else none

/-- One iteration of the margin loop (`specifications.py` lines 150-163) for
one of the six optional margins: a currently-set value of an autoset
attribute is reset to `None`; an explicitly supplied value must be
non-negative; an unset attribute is recorded in `_autoset`. -/
def procMargin (f : MField) (s : SpecState) : SpecState × Option CalcError :=
  match getM s f with
  | some v =>
    if f ∈ s.autoset then (setM s f none, none)
    else if v < 0 then (s, some (.marginNegative f))
    else (s, none)
  | none => ({ s with autoset := insert f s.autoset }, none)

/-- Run the margin loop over a list of fields, stopping (and keeping the
partially mutated state) at the first error, as the Python loop does. -/
def runMargins : SpecState → List MField → SpecState × Option CalcError
  | s, [] => (s, none)
  | s, f :: fs =>
    match procMargin f s with
    | (s', none) => runMargins s' fs
    | (s', some e) => (s', some e)

/-- The order the margin loop processes the six optional margins in. -/
def marginOrder : List MField :=
  [.leftMargin, .columnGap, .rightMargin, .topMargin, .rowGap, .bottomMargin]

/-- The padding entries of the same loop: paddings default to `0`, are never
autoset, and must be non-negative (checked in source order). -/
def procPaddings (s : SpecState) : Option CalcError :=
  if s.left_padding < 0 then some (.paddingNegative .leftPadding)
  else if s.right_padding < 0 then some (.paddingNegative .rightPadding)
  else if s.top_padding < 0 then some (.paddingNegative .topPadding)
  else if s.bottom_padding < 0 then some (.paddingNegative .bottomPadding)
  else none

/-- The whole loop of `specifications.py` lines 150-163. -/
def marginPass (s : SpecState) : SpecState × Option CalcError :=
  match runMargins s marginOrder with
  | (s1, some e) => (s1, some e)
  | (s1, none) => (s1, procPaddings s1)

/-- Corner-radius and padding checks (`specifications.py` lines 165-183). -/
def checkCornerPadding (s : SpecState) : Option CalcError :=
  if s.corner_radius < 0 then some .cornerRadiusNegative
  else if s.corner_radius > s.label_width / 2 then some .cornerRadiusWidth
  else if s.corner_radius > s.label_height / 2 then some .cornerRadiusHeight
  else if s.left_padding + s.right_padding + s.top_padding + s.bottom_padding = 0 then
    if s.padding_radius ≠ 0 then some .paddingRadiusNonzero else none
  else if s.left_padding + s.right_padding ≥ s.label_width then some .paddingTooWide
  else if s.top_padding + s.bottom_padding ≥ s.label_height then some .paddingTooTall
  else if s.padding_radius < 0 then some .paddingRadiusNeg
  else none

/-- Absorption of an explicitly supplied first boundary margin
(`specifications.py` lines 197-201 / 218-222): subtract it from the free
space, fail if the space goes negative, and decrement the auto-slot count. -/
def absorbFirst (space : ℚ) (count : ℤ) (v : Option ℚ) (e : CalcError) :
    Except CalcError (ℚ × ℤ) :=
  match v with
  | none => .ok (space, count)
  | some w => if space - w < 0 then .error e else .ok (space - w, count - 1)

/-- Absorption of an explicitly supplied internal gap, weighted by `n - 1`
(`specifications.py` lines 202-206 / 223-227). -/
def absorbGap (n : ℤ) (space : ℚ) (count : ℤ) (v : Option ℚ) (e : CalcError) :
    Except CalcError (ℚ × ℤ) :=
  match v with
  | none => .ok (space, count)
  | some w =>
    if space - ((n : ℚ) - 1) * w < 0 then .error e
    else .ok (space - ((n : ℚ) - 1) * w, count - (n - 1))

/-- Absorption of an explicitly supplied last boundary margin
(`specifications.py` lines 207-214 / 228-235): after the subtraction, a
residue strictly inside `(-0.01, 0.01)` is folded into the margin and the
space set to exactly `0`; otherwise a negative residue fails.  Returns the
remaining space, the remaining auto-slot count, and the (possibly
adjusted) margin. -/
def absorbLast (space : ℚ) (count : ℤ) (v : Option ℚ) (e : CalcError) :
    Except CalcError (ℚ × ℤ × Option ℚ) :=
  match v with
  | none => .ok (space, count, none)
  | some w =>
    let r := space - w
    if r < 1 / 100 ∧ -(1 / 100 : ℚ) < r then .ok (0, count - 1, some (w + r))
    else if r < 0 then .error e
    else .ok (r, count - 1, some w)

/-- One axis of the margin/gap absorption (`specifications.py` lines
195-214 for the width axis, 216-235 for the height axis): subtract each
explicitly supplied field from the free space in source order, starting
from `1 + n` auto slots. -/
def axisProc (n : ℤ) (space0 : ℚ) (first gap last : Option ℚ)
    (eFirst eGap eLast : CalcError) :
    Except CalcError (ℚ × ℤ × Option ℚ) :=
  match absorbFirst space0 (1 + n) first eFirst with
  | .error e => .error e
  | .ok (s1, c1) =>
    match absorbGap n s1 c1 gap eGap with
    | .error e => .error e
    | .ok (s2, c2) => absorbLast s2 c2 last eLast

/-- `spec.get(field, auto)`: fields still unset after absorption receive the
automatically computed share. -/
def fillAuto (o : Option ℚ) (a : ℚ) : Option ℚ :=
  match o with
  | none => some a
  | some v => some v

/-- `specifications.py` lines 185-255: free-space computation, per-axis
absorption of the supplied margins, the all-supplied exactness check, and
the equal division of leftover space among the unset fields. -/
def solveAxes (s : SpecState) : SpecState × Option CalcError :=
  let hspace := s.sheet_width - s.label_width * (s.columns : ℚ)
  let vspace := s.sheet_height - s.label_height * (s.rows : ℚ)
  if hspace < 0 then (s, some .tooWide)
  else if vspace < 0 then (s, some .tooTall)
  else
    match axisProc s.columns hspace s.left_margin s.column_gap s.right_margin
        .leftMarginTooWide .columnGapTooWide .rightMarginTooWide with
    | .error e => (s, some e)
    | .ok (hs, hcount, rm) =>
      let s2 := { s with right_margin := rm }
      match axisProc s.rows vspace s.top_margin s.row_gap s.bottom_margin
          .topMarginTooTall .rowGapTooTall .bottomMarginTooTall with
      | .error e => (s2, some e)
      | .ok (vs, vcount, bm) =>
        let s3 := { s2 with bottom_margin := bm }
        if hcount = 0 ∧ hs ≠ 0 then (s3, some .widthNotFullyUsed)
        else if vcount = 0 ∧ vs ≠ 0 then (s3, some .heightNotFullyUsed)
        else
          let s4 :=
            if hcount = 0 then s3
            else
              { s3 with
                left_margin := fillAuto s3.left_margin (hs / (hcount : ℚ)),
                column_gap := fillAuto s3.column_gap (hs / (hcount : ℚ)),
                right_margin := fillAuto s3.right_margin (hs / (hcount : ℚ)) }
          let s5 :=
            if vcount = 0 then s4
            else
              { s4 with
                top_margin := fillAuto s4.top_margin (vs / (vcount : ℚ)),
                row_gap := fillAuto s4.row_gap (vs / (vcount : ℚ)),
                bottom_margin := fillAuto s4.bottom_margin (vs / (vcount : ℚ)) }
          (s5, none)

/-- `Specification._calculate`: on an error the returned state is the state
of the object at the moment the exception was raised. -/
def calculate (s : SpecState) : SpecState × Option CalcError :=
  match checkPositive s with
  | some e => (s, some e)
  | none =>
    match marginPass s with
    | (s1, some e) => (s1, some e)
    | (s1, none) =>
      match checkCornerPadding s1 with
      | some e => (s1, some e)
      | none => solveAxes s1

/-- `Specification.__init__`: all six optional margins may be omitted,
`_autoset` starts empty, and `_calculate` runs once. -/
def initSpec (sw sh : ℚ) (nc nr : ℤ) (lw lh : ℚ)
    (lm cg rm tm rg bm : Option ℚ)
    (lp rp tp bp cr pr : ℚ) : SpecState :=
  { sheet_width := sw, sheet_height := sh, columns := nc, rows := nr,
    label_width := lw, label_height := lh,
    left_margin := lm, column_gap := cg, right_margin := rm,
    top_margin := tm, row_gap := rg, bottom_margin := bm,
    left_padding := lp, right_padding := rp, top_padding := tp,
    bottom_padding := bp, corner_radius := cr, padding_radius := pr,
    autoset := ∅ }

/-- The property setter produced by `Specification.create_accessor` for one
of the six optional margins: remember the old value and its autoset status,
drop the attribute from `_autoset`, store the new value, re-run
`_calculate`, and on failure restore only that attribute (and its autoset
status) before re-raising. -/
def setMarginProp (s : SpecState) (f : MField) (value : Option ℚ) :
    SpecState × Option CalcError :=
  let original := getM s f
  let was_autoset := f ∈ s.autoset
  let s1 := { s with autoset := s.autoset.erase f }
  let s2 := setM s1 f value
  match calculate s2 with
  | (s3, none) => (s3, none)
  | (s3, some e) =>
    let s4 := setM s3 f original
    let s5 := if was_autoset then { s4 with autoset := insert f s4.autoset } else s4
    (s5, some e)

/-- The same accessor applied to a required rational attribute: these are
never members of `_autoset`, so the `discard`/re-add steps are no-ops. -/
def setQProp (s : SpecState) (f : QField) (v : ℚ) : SpecState × Option CalcError :=
  let original := getQ s f
  let s2 := setQ s f v
  match calculate s2 with
  | (s3, none) => (s3, none)
  | (s3, some e) => (setQ s3 f original, some e)

/-- The same accessor applied to `columns` / `rows`. -/
def setZProp (s : SpecState) (f : ZField) (v : ℤ) : SpecState × Option CalcError :=
  let original := getZ s f
  let s2 := setZ s f v
  match calculate s2 with
  | (s3, none) => (s3, none)
  | (s3, some e) => (setZ s3 f original, some e)

/-- Total width accounted for by the solved margins: the two boundary
margins, the internal gap times `columns - 1`, and the labels themselves. -/
def widthSum (s : SpecState) : ℚ :=
  s.left_margin.getD 0 + s.right_margin.getD 0 +
    ((s.columns : ℚ) - 1) * s.column_gap.getD 0 + s.label_width * (s.columns : ℚ)

/-- Total height accounted for by the solved margins. -/
def heightSum (s : SpecState) : ℚ :=
  s.top_margin.getD 0 + s.bottom_margin.getD 0 +
    ((s.rows : ℚ) - 1) * s.row_gap.getD 0 + s.label_height * (s.rows : ℚ)

/-!
## The sheet engine (`labels/sheet.py`)

Pages are lists of content items (a real label drawing placed at its shift
coordinates, or a shading rectangle); the `Sheet` object is a `SheetState`.
`reportlab`'s `mm` unit is the float `72 / 25.4`; we model it as the exact
rational `360 / 127`, which only enters the embedding as a fixed positive
scale factor.  The drawing callable is modelled by logging, in order, the
objects it is invoked on (`renderLog`); the copies placed on pages record
the object and the shift coordinates of the copy.
-/

/-- One item added to a page: a (copied) label drawing for an object, or a
shading rectangle for a missing label, each carried at the (left, bottom)
shift coordinates given to `Drawing.shift`. -/
inductive ContentItem (α : Type)
  | label (obj : α) (edges : ℚ × ℚ)
  | shade (edges : ℚ × ℚ)
  deriving DecidableEq

/-- The `mm` scale factor (`72 / 25.4` points per millimetre). -/
def mmQ : ℚ := 360 / 127

/-- Failures of the engine's public operations. -/
inductive SheetError
  | pageAlreadyStarted
  | invalidRow (r : ℤ)
  | invalidColumn (c : ℤ)
  | invalidPageNumber
  deriving DecidableEq, Repr

/-- `Sheet._calculate_edges`: the label rectangle's left and bottom for the
1-based grid position `(row, column)`, scaled by `mm`.  The source guards
the gap terms with the gaps' truthiness; an unset or zero gap contributes
nothing either way. -/
def edgesAt (sp : SpecState) (pos : ℤ × ℤ) : ℚ × ℚ :=
  let cg := sp.column_gap.getD 0
  let rg := sp.row_gap.getD 0
  let left := sp.left_margin.getD 0 + sp.label_width * ((pos.2 : ℚ) - 1) +
    (if cg ≠ 0 then cg * ((pos.2 : ℚ) - 1) else 0)
  let bottom := sp.sheet_height - sp.top_margin.getD 0 - sp.label_height * (pos.1 : ℚ) -
    (if rg ≠ 0 then rg * ((pos.1 : ℚ) - 1) else 0)
  (left * mmQ, bottom * mmQ)

/-- The state of a `Sheet`: the deep-copied specification, construction
options, the `_used` registry (page number to set of marked coordinates,
kept as a duplicate-free list in iteration order), the accumulated pages,
and the cursor (`_position`, `page_count`, `label_count`). -/
structure SheetState (α : Type) where
  specs : SpecState
  pages_to_draw : Option (List ℕ)
  border : Bool
  shade_missing : Bool
  used : List (ℕ × List (ℤ × ℤ))
  pages : List (List (ContentItem α))
  position : ℤ × ℤ
  label_count : ℕ
  page_count : ℕ
  renderLog : List α
  deriving DecidableEq

/-- `Sheet.__init__` state (before any labels): empty registry, no pages,
cursor at `(1, 0)` on page `0`. -/
def mkSheetState {α : Type} (sp : SpecState) (ptd : Option (List ℕ)) (b sm : Bool) :
    SheetState α :=
  { specs := sp, pages_to_draw := ptd, border := b, shade_missing := sm,
    used := [], pages := [], position := (1, 0), label_count := 0,
    page_count := 0, renderLog := [] }

/-- `self._used.get(page, set())`. -/
def lookupUsed : List (ℕ × List (ℤ × ℤ)) → ℕ → List (ℤ × ℤ)
  | [], _ => []
  | e :: rest, page => if e.1 = page then e.2 else lookupUsed rest page

/-- `page in self._used`. -/
def hasPage (used : List (ℕ × List (ℤ × ℤ))) (page : ℕ) : Bool :=
  used.any (fun e => e.1 = page)

/-- `set.add` for a coordinate set. -/
def insertCoord (u : List (ℤ × ℤ)) (p : ℤ × ℤ) : List (ℤ × ℤ) :=
  if p ∈ u then u else u ++ [p]

/-- `missing.discard(position)` applied in place inside the registry. -/
def usedDiscard (used : List (ℕ × List (ℤ × ℤ))) (page : ℕ) (pos : ℤ × ℤ) :
    List (ℕ × List (ℤ × ℤ)) :=
  used.map (fun e => if e.1 = page then (e.1, e.2.erase pos) else e)

/-- `self._used[page] = used`. -/
def setUsedEntry (used : List (ℕ × List (ℤ × ℤ))) (page : ℕ) (u : List (ℤ × ℤ)) :
    List (ℕ × List (ℤ × ℤ)) :=
  if hasPage used page then used.map (fun e => if e.1 = page then (page, u) else e)
  else used ++ [(page, u)]

/-- Total number of marked coordinates in the registry. -/
def usedSize (used : List (ℕ × List (ℤ × ℤ))) : ℕ :=
  (used.map (fun e => e.2.length)).sum

/-- `Sheet._new_page`. -/
def newPage {α : Type} (s : SheetState α) : SheetState α :=
  { s with pages := s.pages ++ [[]],
           page_count := s.page_count + 1,
           position := (1, 0) }

/-- `Sheet._next_label`: start the first page, start a new page if the grid
is full, wrap a full row, and in every case move one column onward. -/
def nextLabel {α : Type} (s : SheetState α) : SheetState α :=
  let s1 :=
    if s.page_count = 0 then newPage s
    else if s.position = (s.specs.rows, s.specs.columns) then newPage s
    else if s.position.2 = s.specs.columns then { s with position := (s.position.1 + 1, 0) }
    else s
  { s1 with position := (s1.position.1, s1.position.2 + 1) }

/-- `self._current_page.add(item)`: append an item to the last page (the
current page is always the most recently started one). -/
def addItem {α : Type} : List (List (ContentItem α)) → ContentItem α → List (List (ContentItem α))
  | [], _ => []
  | [p], it => [p ++ [it]]
  | p :: q :: ps, it => p :: addItem (q :: ps) it

/-- `Sheet._shade_missing_label`: shade the label at the current position. -/
def shadeMissingLabel {α : Type} (s : SheetState α) : SheetState α :=
  { s with pages := addItem s.pages (.shade (edgesAt s.specs s.position)) }

theorem used_newPage {α : Type} (s : SheetState α) : (newPage s).used = s.used := rfl

theorem used_nextLabel {α : Type} (s : SheetState α) : (nextLabel s).used = s.used := by
  unfold nextLabel
  split
  · rfl
  · split
    · rfl
    · split <;> rfl

theorem used_shadeMissingLabel {α : Type} (s : SheetState α) :
    (shadeMissingLabel s).used = s.used := rfl

theorem usedSize_discard_le (used : List (ℕ × List (ℤ × ℤ))) (page : ℕ) (pos : ℤ × ℤ) :
    usedSize (usedDiscard used page pos) ≤ usedSize used := by
  induction used with
  | nil => simp [usedDiscard, usedSize]
  | cons e rest ih =>
    simp only [usedDiscard, usedSize, List.map_cons, List.sum_cons] at *
    rcases Decidable.em (e.1 = page) with h | h
    · simp only [h, if_pos rfl]
      exact Nat.add_le_add (List.erase_sublist pos e.2).length_le ih
    · simp only [if_neg h]
      exact Nat.add_le_add_left ih _

theorem usedSize_discard_lt (used : List (ℕ × List (ℤ × ℤ))) (page : ℕ) (pos : ℤ × ℤ)
    (h : pos ∈ lookupUsed used page) :
    usedSize (usedDiscard used page pos) < usedSize used := by
  induction used with
  | nil => simp [lookupUsed] at h
  | cons e rest ih =>
    simp only [usedDiscard, usedSize, List.map_cons, List.sum_cons] at *
    rcases Decidable.em (e.1 = page) with h1 | h1
    · simp only [lookupUsed, if_pos h1] at h
      simp only [h1, if_pos rfl]
      have h2 : (e.2.erase pos).length < e.2.length := by
        rw [List.length_erase_of_mem h]
        exact Nat.pred_lt (Nat.pos_iff_ne_zero.mp (List.length_pos_of_mem h))
      exact Nat.add_lt_add_of_lt_of_le h2 (usedSize_discard_le rest page pos)
    · simp only [lookupUsed, if_neg h1] at h
      simp only [if_neg h1]
      exact Nat.add_lt_add_left (ih h) _

/-- One iteration of the body of the `while tuple(self._position) in
missing` loop of `Sheet._next_unused_label`: discard the current mark,
shade the skipped label if shading is enabled, and advance to the next
label. -/
def loopStep {α : Type} (s : SheetState α) : SheetState α :=
  let s1 := { s with used := usedDiscard s.used s.page_count s.position }
  let s2 := if s1.shade_missing then shadeMissingLabel s1 else s1
  nextLabel s2

/-- The `while tuple(self._position) in missing` loop of
`Sheet._next_unused_label`: while the current position is marked, run
`loopStep`.  Also counts the number of raw `_next_label` advances the loop
performs.  The recursion is driven by a fuel argument so that the
definition stays kernel-computable; each iteration removes one mark from
the registry, so any fuel larger than the number of registered marks gives
the loop's true (finite) behaviour — `nextUnusedLoopF_irrel` below proves
the fuel is irrelevant beyond that bound, which is exactly the termination
argument of the source loop. -/
def nextUnusedLoopF {α : Type} : ℕ → SheetState α → SheetState α × ℕ
  | 0, s => (s, 0)
  | fuel + 1, s =>
    if s.position ∈ lookupUsed s.used s.page_count then
      let r := nextUnusedLoopF fuel (loopStep s)
      (r.1, r.2 + 1)
    else (s, 0)

theorem loopStep_used {α : Type} (s : SheetState α) :
    (loopStep s).used = usedDiscard s.used s.page_count s.position := by
  unfold loopStep
  rw [used_nextLabel]
  dsimp only
  split <;> rfl

/-- The loop, run with (provably sufficient) fuel. -/
def nextUnusedLoop {α : Type} (s : SheetState α) : SheetState α × ℕ :=
  nextUnusedLoopF (usedSize s.used + 1) s

theorem used_shadeStep {α : Type} (s1 : SheetState α) (c : Bool) :
    ((if c = true then shadeMissingLabel s1 else s1)).used = s1.used := by
  split <;> rfl

/-- Any two sufficient fuel values give the same loop result: the source
loop terminates after at most `usedSize` iterations. -/
theorem nextUnusedLoopF_irrel {α : Type} :
    ∀ (fuel fuel' : ℕ) (s : SheetState α), usedSize s.used < fuel →
      usedSize s.used < fuel' → nextUnusedLoopF fuel s = nextUnusedLoopF fuel' s := by
  intro fuel
  induction fuel with
  | zero => intro fuel' s h; omega
  | succ f ih =>
    intro fuel' s h h'
    cases fuel' with
    | zero => omega
    | succ f' =>
      show nextUnusedLoopF (f + 1) s = nextUnusedLoopF (f' + 1) s
      unfold nextUnusedLoopF
      dsimp only
      split
      · rename_i hmem
        have hlt : usedSize (usedDiscard s.used s.page_count s.position) < usedSize s.used :=
          usedSize_discard_lt s.used s.page_count s.position hmem
        have hu := loopStep_used s
        rw [ih f' (loopStep s) (by rw [hu]; omega) (by rw [hu]; omega)]
      · rfl

/-- `Sheet._next_unused_label`. -/
def nextUnusedLabel {α : Type} (s : SheetState α) : SheetState α :=
  let s1 := (nextUnusedLoop (nextLabel s)).1
  { s1 with label_count := s1.label_count + 1 }

/-- Number of raw `_next_label` advances one `_next_unused_label` call
performs: the initial advance plus the loop's advances. -/
def totalAdvances {α : Type} (s : SheetState α) : ℕ :=
  1 + (nextUnusedLoop (nextLabel s)).2

/-- `if self.pages_to_draw and self.page_count not in self.pages_to_draw`:
an empty allow-list is falsy in Python, so it draws every page. -/
def shouldSkip {α : Type} (s : SheetState α) : Bool :=
  match s.pages_to_draw with
  | none => false
  | some l => !l.isEmpty && !l.contains s.page_count

/-- The placement loop of `Sheet._draw_label`: for each copy, advance to
the next unused label and, unless the current page is excluded, add the
copy (shifted to the current position's edges) to the current page. -/
def drawLoop {α : Type} (s : SheetState α) (obj : α) : ℕ → SheetState α
  | 0 => s
  | k + 1 =>
    let s1 := nextUnusedLabel s
    let s2 := if shouldSkip s1 then s1
              else { s1 with pages := addItem s1.pages (.label obj (edgesAt s1.specs s1.position)) }
    drawLoop s2 obj k

/-- `Sheet._draw_label`: the drawing callable is invoked exactly once (the
object is appended to the render log), then `count` copies are placed. -/
def drawLabel {α : Type} (s : SheetState α) (obj : α) (count : ℕ) : SheetState α :=
  drawLoop { s with renderLog := s.renderLog ++ [obj] } obj count

/-- `Sheet.add_label`. -/
def addLabel {α : Type} (s : SheetState α) (obj : α) (count : ℕ) : SheetState α :=
  drawLabel s obj count

/-- `Sheet.add_labels`: the count is either a single integer (repeated
forever) or a sequence advanced in parallel with the objects; a missing
count stops the iteration. -/
def addLabels {α : Type} (s : SheetState α) : List α → ℕ ⊕ List ℕ → SheetState α
  | [], _ => s
  | o :: os, .inl n => addLabels (drawLabel s o n) os (.inl n)
  | _ :: _, .inr [] => s
  | o :: os, .inr (n :: ns) => addLabels (drawLabel s o n) os (.inr ns)

/-- The coordinate loop of `Sheet.partial_page`: validate each `(row,
column)` pair against the grid bounds, adding the valid ones (in order) to
the accumulating set, and stop at the first invalid one. -/
def addCoords (nr nc : ℤ) : List (ℤ × ℤ) → List (ℤ × ℤ) → List (ℤ × ℤ) × Option SheetError
  | u, [] => (u, none)
  | u, (r, c) :: rest =>
    if r < 1 ∨ r > nr then (u, some (.invalidRow r))
    else if c < 1 ∨ c > nc then (u, some (.invalidColumn c))
    else addCoords nr nc (insertCoord u (r, c)) rest

/-- `Sheet.partial_page`.  The source fetches `used = self._used.get(page,
set())` and mutates `used` in place, so when the page already has an entry
the coordinates added before a failing one stay in the registry; when the
page had no entry the registry is untouched on failure. -/
def partialPage {α : Type} (s : SheetState α) (page : ℕ) (coords : List (ℤ × ℤ)) :
    SheetState α × Option SheetError :=
  if page ≤ s.page_count then (s, some .pageAlreadyStarted)
  else
    match addCoords s.specs.rows s.specs.columns (lookupUsed s.used page) coords with
    | (u, none) => ({ s with used := setUsedEntry s.used page u }, none)
    | (u, some e) =>
      if hasPage s.used page then ({ s with used := setUsedEntry s.used page u }, some e)
      else (s, some e)

/-- The iteration of `Sheet._shade_remaining_missing` over the still-marked
positions of the current page: each one becomes the current position and is
shaded (the registry is not modified). -/
def shadePositions {α : Type} (s : SheetState α) : List (ℤ × ℤ) → SheetState α
  | [] => s
  | p :: ps => shadePositions (shadeMissingLabel { s with position := p }) ps

/-- `Sheet._shade_remaining_missing`. -/
def shadeRemainingMissing {α : Type} (s : SheetState α) : SheetState α :=
  if s.shade_missing then shadePositions s (lookupUsed s.used s.page_count)
  else s

/-- The state effect of `Sheet.save`: the end-of-run shading sweep (the
subsequent canvas rendering reads the pages without modifying them). -/
def save {α : Type} (s : SheetState α) : SheetState α :=
  shadeRemainingMissing s

/-- The state effect of `Sheet.preview` / `Sheet.preview_string`: validate
the page number, then run the same sweep. -/
def preview {α : Type} (s : SheetState α) (page : ℕ) : SheetState α × Option SheetError :=
  if page < 1 ∨ page > s.page_count then (s, some .invalidPageNumber)
  else (shadeRemainingMissing s, none)

/-- The label placements of a page: object and shift coordinates of each
label item, in the order they were added. -/
def pageLabels {α : Type} (p : List (ContentItem α)) : List (α × (ℚ × ℚ)) :=
  p.filterMap fun it =>
    match it with
    | .label o e => some (o, e)
    | .shade _ => none

/-- All label placements of the document as `(page number, object, shift)`
triples, pages in order, 1-based page numbers. -/
def placementsFrom {α : Type} (k : ℕ) : List (List (ContentItem α)) → List (ℕ × α × (ℚ × ℚ))
  | [] => []
  | p :: ps => (pageLabels p).map (fun q => (k, q.1, q.2)) ++ placementsFrom (k + 1) ps

/-- The physical placements recorded in a sheet's pages. -/
def placementList {α : Type} (s : SheetState α) : List (ℕ × α × (ℚ × ℚ)) :=
  placementsFrom 1 s.pages

/-- Is this content item a shading rectangle? -/
def isShade {α : Type} : ContentItem α → Bool
  | .shade _ => true
  | .label _ _ => false

/-- Number of shading shapes on the current (last) page. -/
def currentShadeCount {α : Type} (s : SheetState α) : ℕ :=
  match s.pages.getLast? with
  | none => 0
  | some p => p.countP isShade

/-- Is this content item a label drawing for the object `x`? -/
def occPred {α : Type} [DecidableEq α] (x : α) : ContentItem α → Bool
  | .label o _ => decide (o = x)
  | .shade _ => false

/-- Number of placements of a given object across all pages. -/
def labelOccs {α : Type} [DecidableEq α] (s : SheetState α) (x : α) : ℕ :=
  (s.pages.map (List.countP (occPred x))).sum

/-- The cursor slot: current page and 1-based `(row, column)`. -/
def slotOf {α : Type} (s : SheetState α) : ℕ × (ℤ × ℤ) :=
  (s.page_count, s.position)

/-- Lexicographic order on slots: later page, or same page and later row,
or same page and row and later column. -/
def slotLt (a b : ℕ × (ℤ × ℤ)) : Prop :=
  a.1 < b.1 ∨ (a.1 = b.1 ∧ (a.2.1 < b.2.1 ∨ (a.2.1 = b.2.1 ∧ a.2.2 < b.2.2)))

instance slotLtDec : DecidableRel slotLt := fun a b => by
  unfold slotLt; infer_instance

/-- The per-copy record of the placement loop of `Sheet._draw_label`: for
each copy, the cursor slot it lands on and the rectangle it is shifted to.
The state is threaded exactly as by `drawLoop`. -/
def drawTrace {α : Type} (obj : α) : SheetState α → ℕ → List ((ℕ × (ℤ × ℤ)) × (ℚ × ℚ))
  | _, 0 => []
  | s, k + 1 =>
    let s1 := nextUnusedLabel s
    let s2 := if shouldSkip s1 then s1
              else { s1 with pages := addItem s1.pages (.label obj (edgesAt s1.specs s1.position)) }
    (slotOf s1, edgesAt s1.specs s1.position) :: drawTrace obj s2 k

/-- Geometry facts about a solved specification that the engine claims rely
on: positive label sizes and non-negative gaps. -/
def SpecOK (sp : SpecState) : Prop :=
  0 < sp.label_width ∧ 0 < sp.label_height ∧
    0 ≤ sp.column_gap.getD 0 ∧ 0 ≤ sp.row_gap.getD 0

instance specOKDec (sp : SpecState) : Decidable (SpecOK sp) := by
  unfold SpecOK; infer_instance

/-- Structural invariant of every reachable sheet state: one accumulated
page per started page. -/
def WF {α : Type} (s : SheetState α) : Prop :=
  s.pages.length = s.page_count

instance wfDec {α : Type} (s : SheetState α) : Decidable (WF s) := by
  unfold WF; infer_instance

/-- The caller's `Specification` object and the `Sheet` constructed from
it: `Sheet.__init__` re-solves the caller's object and then deep-copies it
(`self.specs = deepcopy(specification)`), so the two live in separate
cells. -/
structure PyWorld (α : Type) where
  callerSpec : SpecState
  sheet : SheetState α

/-- Construct a sheet: `specification._calculate()` runs on the caller's
object, the result is deep-copied into the sheet. -/
def mkWorld {α : Type} (spec : SpecState) (ptd : Option (List ℕ)) (b sm : Bool) :
    PyWorld α :=
  let solved := (calculate spec).1
  { callerSpec := solved, sheet := mkSheetState solved ptd b sm }

/-- Mutating the caller's `Specification` object after construction touches
only the caller's cell: the deep copy shares no state with it. -/
def mutateCaller {α : Type} (w : PyWorld α) (f : SpecState → SpecState) : PyWorld α :=
  { w with callerSpec := f w.callerSpec }

/-!
## Lemmas about the dimension solver
-/

theorem checkPositive_none {s : SpecState} (h : checkPositive s = none) :
    0 < s.sheet_width ∧ 0 < s.sheet_height ∧ 0 < s.columns ∧ 0 < s.rows ∧
      0 < s.label_width ∧ 0 < s.label_height := by
  unfold checkPositive at h
  split_ifs at h with h1 h2 h3 h4 h5 h6 <;> try simp at h
  exact ⟨not_le.mp h1, not_le.mp h2, not_le.mp h3, not_le.mp h4, not_le.mp h5, not_le.mp h6⟩

/-- A successful `calculate` run decomposes into its four phases. -/
theorem calculate_ok_decomp {s s' : SpecState} (h : calculate s = (s', none)) :
    ∃ s1, checkPositive s = none ∧ marginPass s = (s1, none) ∧
      checkCornerPadding s1 = none ∧ solveAxes s1 = (s', none) := by
  unfold calculate at h
  cases hcp : checkPositive s with
  | some e => rw [hcp] at h; simp at h
  | none =>
    rw [hcp] at h
    dsimp only at h
    cases hmp : marginPass s with
    | mk s1 oe =>
      rw [hmp] at h
      cases oe with
      | some e => dsimp only at h; simp at h
      | none =>
        dsimp only at h
        cases hcc : checkCornerPadding s1 with
        | some e => rw [hcc] at h; dsimp only at h; simp at h
        | none => rw [hcc] at h; dsimp only at h; exact ⟨s1, rfl, rfl, hcc, h⟩

theorem setM_base (s : SpecState) (f : MField) (v : Option ℚ) :
    (setM s f v).sheet_width = s.sheet_width ∧ (setM s f v).sheet_height = s.sheet_height ∧
      (setM s f v).columns = s.columns ∧ (setM s f v).rows = s.rows ∧
      (setM s f v).label_width = s.label_width ∧ (setM s f v).label_height = s.label_height := by
  cases f <;> exact ⟨rfl, rfl, rfl, rfl, rfl, rfl⟩

theorem procMargin_base (f : MField) (s : SpecState) :
    (procMargin f s).1.sheet_width = s.sheet_width ∧
      (procMargin f s).1.sheet_height = s.sheet_height ∧
      (procMargin f s).1.columns = s.columns ∧ (procMargin f s).1.rows = s.rows ∧
      (procMargin f s).1.label_width = s.label_width ∧
      (procMargin f s).1.label_height = s.label_height := by
  unfold procMargin
  rcases hm : getM s f with _ | v
  · exact ⟨rfl, rfl, rfl, rfl, rfl, rfl⟩
  · dsimp only
    split_ifs
    · exact setM_base s f none
    · exact ⟨rfl, rfl, rfl, rfl, rfl, rfl⟩
    · exact ⟨rfl, rfl, rfl, rfl, rfl, rfl⟩

theorem runMargins_base (fs : List MField) (s : SpecState) :
    (runMargins s fs).1.sheet_width = s.sheet_width ∧
      (runMargins s fs).1.sheet_height = s.sheet_height ∧
      (runMargins s fs).1.columns = s.columns ∧ (runMargins s fs).1.rows = s.rows ∧
      (runMargins s fs).1.label_width = s.label_width ∧
      (runMargins s fs).1.label_height = s.label_height := by
  induction fs generalizing s with
  | nil => exact ⟨rfl, rfl, rfl, rfl, rfl, rfl⟩
  | cons f fs ih =>
    have hp := procMargin_base f s
    unfold runMargins
    cases hpm : procMargin f s with
    | mk s2 oe =>
      rw [hpm] at hp
      cases oe with
      | none =>
        have h2 := ih s2
        exact ⟨h2.1.trans hp.1, h2.2.1.trans hp.2.1, h2.2.2.1.trans hp.2.2.1,
          h2.2.2.2.1.trans hp.2.2.2.1, h2.2.2.2.2.1.trans hp.2.2.2.2.1,
          h2.2.2.2.2.2.trans hp.2.2.2.2.2⟩
      | some e => exact hp

theorem marginPass_base {s s1 : SpecState} {oe : Option CalcError}
    (h : marginPass s = (s1, oe)) :
    s1.sheet_width = s.sheet_width ∧ s1.sheet_height = s.sheet_height ∧
      s1.columns = s.columns ∧ s1.rows = s.rows ∧
      s1.label_width = s.label_width ∧ s1.label_height = s.label_height := by
  have hb := runMargins_base marginOrder s
  unfold marginPass at h
  cases hrm : runMargins s marginOrder with
  | mk s2 oe2 =>
    rw [hrm] at h hb
    cases oe2 with
    | some e => rw [(Prod.mk.injEq _ _ _ _).mp h |>.1] at hb; exact hb
    | none => rw [(Prod.mk.injEq _ _ _ _).mp h |>.1] at hb; exact hb

theorem fillAuto_getD_zero (o : Option ℚ) : (fillAuto o 0).getD 0 = o.getD 0 := by
  cases o <;> rfl

theorem absorbFirst_ok_inv {sp : ℚ} {c : ℤ} {v : Option ℚ} {e : CalcError}
    {sp' : ℚ} {c' : ℤ} (h : absorbFirst sp c v e = .ok (sp', c')) :
    (v = none ∧ sp' = sp ∧ c' = c) ∨
      (∃ w, v = some w ∧ 0 ≤ sp - w ∧ sp' = sp - w ∧ c' = c - 1) := by
  rcases v with _ | w
  · simp only [absorbFirst, Except.ok.injEq, Prod.mk.injEq] at h
    exact Or.inl ⟨rfl, h.1.symm, h.2.symm⟩
  · simp only [absorbFirst] at h
    split_ifs at h with h1
    simp only [Except.ok.injEq, Prod.mk.injEq] at h
    exact Or.inr ⟨w, rfl, not_lt.mp h1, h.1.symm, h.2.symm⟩

theorem absorbGap_ok_inv {n : ℤ} {sp : ℚ} {c : ℤ} {v : Option ℚ} {e : CalcError}
    {sp' : ℚ} {c' : ℤ} (h : absorbGap n sp c v e = .ok (sp', c')) :
    (v = none ∧ sp' = sp ∧ c' = c) ∨
      (∃ w, v = some w ∧ 0 ≤ sp - ((n : ℚ) - 1) * w ∧
        sp' = sp - ((n : ℚ) - 1) * w ∧ c' = c - (n - 1)) := by
  rcases v with _ | w
  · simp only [absorbGap, Except.ok.injEq, Prod.mk.injEq] at h
    exact Or.inl ⟨rfl, h.1.symm, h.2.symm⟩
  · simp only [absorbGap] at h
    split_ifs at h with h1
    simp only [Except.ok.injEq, Prod.mk.injEq] at h
    exact Or.inr ⟨w, rfl, not_lt.mp h1, h.1.symm, h.2.symm⟩

theorem absorbLast_ok_inv {sp : ℚ} {c : ℤ} {v : Option ℚ} {e : CalcError}
    {sp' : ℚ} {c' : ℤ} {l' : Option ℚ}
    (h : absorbLast sp c v e = .ok (sp', c', l')) :
    (v = none ∧ sp' = sp ∧ c' = c ∧ l' = none) ∨
      (∃ w, v = some w ∧ c' = c - 1 ∧
        ((sp - w < 1 / 100 ∧ -(1 / 100 : ℚ) < sp - w ∧ sp' = 0 ∧ l' = some (w + (sp - w))) ∨
          (0 ≤ sp - w ∧ sp' = sp - w ∧ l' = some w))) := by
  rcases v with _ | w
  · simp only [absorbLast, Except.ok.injEq, Prod.mk.injEq] at h
    exact Or.inl ⟨rfl, h.1.symm, h.2.1.symm, h.2.2.symm⟩
  · simp only [absorbLast] at h
    split_ifs at h with h1 h2
    · simp only [Except.ok.injEq, Prod.mk.injEq] at h
      exact Or.inr ⟨w, rfl, h.2.1.symm,
        Or.inl ⟨h1.1, h1.2, h.1.symm, h.2.2.symm⟩⟩
    · simp only [Except.ok.injEq, Prod.mk.injEq] at h
      exact Or.inr ⟨w, rfl, h.2.1.symm, Or.inr ⟨not_lt.mp h2, h.1.symm, h.2.2.symm⟩⟩

/-- The accounting identity of one axis of the absorption: on success, for
any value `a` later assigned to the unset fields, the final margins sum to
the absorbed space plus `a` times the number of remaining auto slots. -/
theorem axisProc_ok_sum {n : ℤ} {sp : ℚ} {f g l : Option ℚ} {e1 e2 e3 : CalcError}
    {sp' : ℚ} {c : ℤ} {l' : Option ℚ}
    (h : axisProc n sp f g l e1 e2 e3 = .ok (sp', c, l')) (hsp : 0 ≤ sp) :
    (∀ a : ℚ,
      (fillAuto f a).getD 0 + ((n : ℚ) - 1) * (fillAuto g a).getD 0 +
        (fillAuto l' a).getD 0 = (sp - sp') + a * (c : ℚ)) ∧
      l'.isSome = l.isSome ∧ 0 ≤ sp' := by
  unfold axisProc at h
  cases h1 : absorbFirst sp (1 + n) f e1 with
  | error e => rw [h1] at h; simp at h
  | ok t1 =>
    obtain ⟨s1, c1⟩ := t1
    rw [h1] at h
    dsimp only at h
    cases h2 : absorbGap n s1 c1 g e2 with
    | error e => rw [h2] at h; simp at h
    | ok t2 =>
      obtain ⟨s2, c2⟩ := t2
      rw [h2] at h
      dsimp only at h
      rcases absorbFirst_ok_inv h1 with ⟨hf, hs1, hc1⟩ | ⟨fw, hf, hfge, hs1, hc1⟩ <;>
        rcases absorbGap_ok_inv h2 with ⟨hg, hs2, hc2⟩ | ⟨gw, hg, hgge, hs2, hc2⟩ <;>
        rcases absorbLast_ok_inv h with ⟨hl, hsp', hc, hl'⟩ |
          ⟨lw, hl, hc, ⟨hlt, hgt, hsp', hl'⟩ | ⟨hlge, hsp', hl'⟩⟩ <;>
        subst hf <;> subst hg <;> subst hl <;> subst hs1 <;> subst hc1 <;>
        subst hs2 <;> subst hc2 <;> subst hsp' <;> subst hc <;> subst hl' <;>
        refine ⟨fun a => ?_, by rfl, by linarith⟩ <;>
        simp only [fillAuto, Option.getD_some] <;> push_cast <;> ring


/-- On success `solveAxes` makes the margins of each axis account exactly
for the sheet size, and leaves the compulsory dimensions untouched. -/
theorem solveAxes_ok {s1 s' : SpecState} (h : solveAxes s1 = (s', none)) :
    widthSum s' = s1.sheet_width ∧ heightSum s' = s1.sheet_height ∧
      s'.sheet_width = s1.sheet_width ∧ s'.sheet_height = s1.sheet_height ∧
      s'.columns = s1.columns ∧ s'.rows = s1.rows ∧
      s'.label_width = s1.label_width ∧ s'.label_height = s1.label_height := by
  unfold solveAxes at h
  dsimp only at h
  split_ifs at h with hW hV
  · exact absurd h (by simp)
  · exact absurd h (by simp)
  cases hH : axisProc s1.columns (s1.sheet_width - s1.label_width * (s1.columns : ℚ))
      s1.left_margin s1.column_gap s1.right_margin CalcError.leftMarginTooWide
      CalcError.columnGapTooWide CalcError.rightMarginTooWide with
  | error e => rw [hH] at h; simp at h
  | ok tH =>
    obtain ⟨hs, hcount, rm⟩ := tH
    rw [hH] at h
    dsimp only at h
    cases hVx : axisProc s1.rows (s1.sheet_height - s1.label_height * (s1.rows : ℚ))
        s1.top_margin s1.row_gap s1.bottom_margin CalcError.topMarginTooTall
        CalcError.rowGapTooTall CalcError.bottomMarginTooTall with
    | error e => rw [hVx] at h; simp at h
    | ok tV =>
      obtain ⟨vs, vcount, bm⟩ := tV
      rw [hVx] at h
      dsimp only at h
      have hxH := axisProc_ok_sum hH (not_lt.mp hW)
      have hxV := axisProc_ok_sum hVx (not_lt.mp hV)
      split_ifs at h with hne1 hne2 vc0 hc0 hc1
      · exact absurd h (by simp)
      · exact absurd h (by simp)
      · obtain ⟨hs', _⟩ := Prod.mk.injEq .. |>.mp h
        subst hs'
        have hhs : hs = 0 := not_not.mp (fun hne => hne1 ⟨hc0, hne⟩)
        have hvs : vs = 0 := not_not.mp (fun hne => hne2 ⟨vc0, hne⟩)
        have e1 := hxH.1 0
        have e2 := hxV.1 0
        rw [fillAuto_getD_zero, fillAuto_getD_zero, fillAuto_getD_zero] at e1 e2
        refine ⟨?_, ?_, rfl, rfl, rfl, rfl, rfl, rfl⟩ <;>
          simp only [widthSum, heightSum] <;> linarith
      · obtain ⟨hs', _⟩ := Prod.mk.injEq .. |>.mp h
        subst hs'
        have hvs : vs = 0 := not_not.mp (fun hne => hne2 ⟨vc0, hne⟩)
        have e1 := hxH.1 (hs / (hcount : ℚ))
        have e2 := hxV.1 0
        rw [fillAuto_getD_zero, fillAuto_getD_zero, fillAuto_getD_zero] at e2
        have hhc : (hcount : ℚ) ≠ 0 := Int.cast_ne_zero.mpr hc0
        have hdh : hs / (hcount : ℚ) * (hcount : ℚ) = hs := div_mul_cancel₀ _ hhc
        refine ⟨?_, ?_, rfl, rfl, rfl, rfl, rfl, rfl⟩ <;>
          simp only [widthSum, heightSum] <;> linarith
      · obtain ⟨hs', _⟩ := Prod.mk.injEq .. |>.mp h
        subst hs'
        have hhs : hs = 0 := not_not.mp (fun hne => hne1 ⟨hc1, hne⟩)
        have e1 := hxH.1 0
        have e2 := hxV.1 (vs / (vcount : ℚ))
        rw [fillAuto_getD_zero, fillAuto_getD_zero, fillAuto_getD_zero] at e1
        have hvc : (vcount : ℚ) ≠ 0 := Int.cast_ne_zero.mpr vc0
        have hdv : vs / (vcount : ℚ) * (vcount : ℚ) = vs := div_mul_cancel₀ _ hvc
        refine ⟨?_, ?_, rfl, rfl, rfl, rfl, rfl, rfl⟩ <;>
          simp only [widthSum, heightSum] <;> linarith
      · obtain ⟨hs', _⟩ := Prod.mk.injEq .. |>.mp h
        subst hs'
        have e1 := hxH.1 (hs / (hcount : ℚ))
        have e2 := hxV.1 (vs / (vcount : ℚ))
        have hhc : (hcount : ℚ) ≠ 0 := Int.cast_ne_zero.mpr hc1
        have hvc : (vcount : ℚ) ≠ 0 := Int.cast_ne_zero.mpr vc0
        have hdh : hs / (hcount : ℚ) * (hcount : ℚ) = hs := div_mul_cancel₀ _ hhc
        have hdv : vs / (vcount : ℚ) * (vcount : ℚ) = vs := div_mul_cancel₀ _ hvc
        refine ⟨?_, ?_, rfl, rfl, rfl, rfl, rfl, rfl⟩ <;>
          simp only [widthSum, heightSum] <;> linarith

/-- A successful solve balances both axes exactly. -/
theorem calculate_ok_sums {s s' : SpecState} (h : calculate s = (s', none)) :
    widthSum s' = s'.sheet_width ∧ heightSum s' = s'.sheet_height := by
  obtain ⟨s1, _, _, _, hsa⟩ := calculate_ok_decomp h
  have hx := solveAxes_ok hsa
  exact ⟨hx.1.trans hx.2.2.1.symm, hx.2.1.trans hx.2.2.2.1.symm⟩

/-- The worked example of the spec: sheet `210×297`, 2 columns, 8 rows,
labels `90×25`, every margin automatic. -/
def specA4 : SpecState :=
  initSpec 210 297 2 8 90 25 none none none none none none 0 0 0 0 0 0

/-- The solved form of `specA4`: each axis's leftover space divided into
`count + 1` parts (`30 / 3 = 10` horizontally, `97 / 9` vertically). -/
def specA4solved : SpecState :=
  { sheet_width := 210, sheet_height := 297, columns := 2, rows := 8,
    label_width := 90, label_height := 25,
    left_margin := some 10, column_gap := some 10, right_margin := some 10,
    top_margin := some (97 / 9), row_gap := some (97 / 9),
    bottom_margin := some (97 / 9),
    left_padding := 0, right_padding := 0, top_padding := 0, bottom_padding := 0,
    corner_radius := 0, padding_radius := 0,
    autoset := insert MField.bottomMargin (insert MField.rowGap (insert MField.topMargin
      (insert MField.rightMargin (insert MField.columnGap (insert MField.leftMargin ∅))))) }

/-- C1: for every specification accepted by the solver, on each axis the two
boundary margins plus the internal gap times `count - 1` plus the label size
times `count` equal the total axis size to within `1e-6` (the embedding's
arithmetic is exact, so the identity is in fact exact). -/
theorem claim_C1_axis_balance (s s' : SpecState) (h : calculate s = (s', none)) :
    |widthSum s' - s'.sheet_width| ≤ 1 / 1000000 ∧
      |heightSum s' - s'.sheet_height| ≤ 1 / 1000000 := by
  obtain ⟨h1, h2⟩ := calculate_ok_sums h
  rw [h1, h2, sub_self, abs_zero]
  norm_num

/-- Witness for C1 at the spec's worked example. -/
theorem claim_C1_axis_balance_witness :
    calculate specA4 = (specA4solved, none) ∧
      (|widthSum specA4solved - specA4solved.sheet_width| ≤ 1 / 1000000 ∧
        |heightSum specA4solved - specA4solved.sheet_height| ≤ 1 / 1000000) :=
  ⟨by with_unfolding_all decide,
    claim_C1_axis_balance specA4 specA4solved (by with_unfolding_all decide)⟩

/-- When all six optional margins are unset, the margin loop leaves them
unset and only records them in `_autoset`. -/
theorem marginPass_all_none {s s1 : SpecState} (h : marginPass s = (s1, none))
    (h1 : s.left_margin = none) (h2 : s.column_gap = none) (h3 : s.right_margin = none)
    (h4 : s.top_margin = none) (h5 : s.row_gap = none) (h6 : s.bottom_margin = none) :
    s1.left_margin = none ∧ s1.column_gap = none ∧ s1.right_margin = none ∧
      s1.top_margin = none ∧ s1.row_gap = none ∧ s1.bottom_margin = none ∧
      s1.sheet_width = s.sheet_width ∧ s1.sheet_height = s.sheet_height ∧
      s1.columns = s.columns ∧ s1.rows = s.rows ∧
      s1.label_width = s.label_width ∧ s1.label_height = s.label_height := by
  simp only [marginPass, runMargins, marginOrder, procMargin, getM,
    h1, h2, h3, h4, h5, h6] at h
  obtain ⟨hS, _⟩ := Prod.mk.injEq .. |>.mp h
  subst hS
  exact ⟨rfl, rfl, rfl, rfl, rfl, rfl, rfl, rfl, rfl, rfl, rfl, rfl⟩

/-- With every margin unset, each axis splits its free space into
`count + 1` equal parts. -/
theorem solveAxes_all_none {s1 s' : SpecState} (h : solveAxes s1 = (s', none))
    (hc : 0 < s1.columns) (hr : 0 < s1.rows)
    (h1 : s1.left_margin = none) (h2 : s1.column_gap = none) (h3 : s1.right_margin = none)
    (h4 : s1.top_margin = none) (h5 : s1.row_gap = none) (h6 : s1.bottom_margin = none) :
    s'.left_margin =
        some ((s1.sheet_width - s1.label_width * (s1.columns : ℚ)) / ((s1.columns : ℚ) + 1)) ∧
      s'.column_gap =
        some ((s1.sheet_width - s1.label_width * (s1.columns : ℚ)) / ((s1.columns : ℚ) + 1)) ∧
      s'.right_margin =
        some ((s1.sheet_width - s1.label_width * (s1.columns : ℚ)) / ((s1.columns : ℚ) + 1)) ∧
      s'.top_margin =
        some ((s1.sheet_height - s1.label_height * (s1.rows : ℚ)) / ((s1.rows : ℚ) + 1)) ∧
      s'.row_gap =
        some ((s1.sheet_height - s1.label_height * (s1.rows : ℚ)) / ((s1.rows : ℚ) + 1)) ∧
      s'.bottom_margin =
        some ((s1.sheet_height - s1.label_height * (s1.rows : ℚ)) / ((s1.rows : ℚ) + 1)) := by
  unfold solveAxes at h
  dsimp only at h
  rw [h1, h2, h3, h4, h5, h6] at h
  have hax : ∀ (n : ℤ) (sp : ℚ) (eA eB eC : CalcError),
      axisProc n sp none none none eA eB eC = .ok (sp, 1 + n, none) :=
    fun _ _ _ _ _ => rfl
  rw [hax, hax] at h
  dsimp only at h
  split_ifs at h with hW hV hx1 hx2 hvz hhz hhz2
  · exact absurd h (by simp)
  · exact absurd h (by simp)
  · exact absurd h (by simp)
  · exact absurd h (by simp)
  · exact absurd hvz (by omega)
  · exact absurd hvz (by omega)
  · exact absurd hhz2 (by omega)
  · obtain ⟨hS, _⟩ := Prod.mk.injEq .. |>.mp h
    subst hS
    refine ⟨?_, ?_, ?_, ?_, ?_, ?_⟩ <;> simp only [fillAuto] <;> push_cast <;> ring_nf

/-- C4: for every accepted specification in which none of the six margin/gap
fields is supplied, the solver divides each axis's leftover space
(`axis_total - label_size * count`) into `count + 1` equal parts, assigning
one part to each boundary margin and one part to the internal gap. -/
theorem claim_C4_auto_split (s s' : SpecState) (h : calculate s = (s', none))
    (h1 : s.left_margin = none) (h2 : s.column_gap = none) (h3 : s.right_margin = none)
    (h4 : s.top_margin = none) (h5 : s.row_gap = none) (h6 : s.bottom_margin = none) :
    (s'.left_margin =
        some ((s'.sheet_width - s'.label_width * (s'.columns : ℚ)) / ((s'.columns : ℚ) + 1)) ∧
      s'.column_gap =
        some ((s'.sheet_width - s'.label_width * (s'.columns : ℚ)) / ((s'.columns : ℚ) + 1)) ∧
      s'.right_margin =
        some ((s'.sheet_width - s'.label_width * (s'.columns : ℚ)) / ((s'.columns : ℚ) + 1))) ∧
    (s'.top_margin =
        some ((s'.sheet_height - s'.label_height * (s'.rows : ℚ)) / ((s'.rows : ℚ) + 1)) ∧
      s'.row_gap =
        some ((s'.sheet_height - s'.label_height * (s'.rows : ℚ)) / ((s'.rows : ℚ) + 1)) ∧
      s'.bottom_margin =
        some ((s'.sheet_height - s'.label_height * (s'.rows : ℚ)) / ((s'.rows : ℚ) + 1))) := by
  obtain ⟨s1, hcp, hmp, hcc, hsa⟩ := calculate_ok_decomp h
  have hpos := checkPositive_none hcp
  obtain ⟨m1, m2, m3, m4, m5, m6, b1, b2, b3, b4, b5, b6⟩ :=
    marginPass_all_none hmp h1 h2 h3 h4 h5 h6
  obtain ⟨a1, a2, a3, a4, a5, a6⟩ :=
    solveAxes_all_none hsa (by rw [b3]; exact hpos.2.2.1) (by rw [b4]; exact hpos.2.2.2.1)
      m1 m2 m3 m4 m5 m6
  obtain ⟨_, _, c1, c2, c3, c4, c5, c6⟩ := solveAxes_ok hsa
  exact ⟨⟨by rw [a1, c1, c5, c3], by rw [a2, c1, c5, c3], by rw [a3, c1, c5, c3]⟩,
    by rw [a4, c2, c6, c4], by rw [a5, c2, c6, c4], by rw [a6, c2, c6, c4]⟩

/-- Witness for C4 at the spec's worked example. -/
theorem claim_C4_auto_split_witness :
    (calculate specA4 = (specA4solved, none) ∧ specA4.left_margin = none ∧
        specA4.column_gap = none ∧ specA4.right_margin = none ∧
        specA4.top_margin = none ∧ specA4.row_gap = none ∧
        specA4.bottom_margin = none) ∧
      ((specA4solved.left_margin =
          some ((specA4solved.sheet_width -
            specA4solved.label_width * (specA4solved.columns : ℚ)) /
              ((specA4solved.columns : ℚ) + 1)) ∧
        specA4solved.column_gap =
          some ((specA4solved.sheet_width -
            specA4solved.label_width * (specA4solved.columns : ℚ)) /
              ((specA4solved.columns : ℚ) + 1)) ∧
        specA4solved.right_margin =
          some ((specA4solved.sheet_width -
            specA4solved.label_width * (specA4solved.columns : ℚ)) /
              ((specA4solved.columns : ℚ) + 1))) ∧
       (specA4solved.top_margin =
          some ((specA4solved.sheet_height -
            specA4solved.label_height * (specA4solved.rows : ℚ)) /
              ((specA4solved.rows : ℚ) + 1)) ∧
        specA4solved.row_gap =
          some ((specA4solved.sheet_height -
            specA4solved.label_height * (specA4solved.rows : ℚ)) /
              ((specA4solved.rows : ℚ) + 1)) ∧
        specA4solved.bottom_margin =
          some ((specA4solved.sheet_height -
            specA4solved.label_height * (specA4solved.rows : ℚ)) /
              ((specA4solved.rows : ℚ) + 1)))) :=
  ⟨⟨by with_unfolding_all decide, rfl, rfl, rfl, rfl, rfl, rfl⟩,
    claim_C4_auto_split specA4 specA4solved (by with_unfolding_all decide)
      rfl rfl rfl rfl rfl rfl⟩

/-- A specification supplying only the right margin `9.996` on a sheet with
`0.004` units of residual width: the subtraction leaves the space positive,
and the left margin and column gap are still unsupplied. -/
def specSnap : SpecState :=
  initSpec 100 100 1 1 90 90 none none (some (2499 / 250)) none none none 0 0 0 0 0 0

/-- The solved form of `specSnap`: the right margin snapped up to `10`, the
auto horizontal fields `0`, the vertical fields `5` each. -/
def specSnapSolved : SpecState :=
  { sheet_width := 100, sheet_height := 100, columns := 1, rows := 1,
    label_width := 90, label_height := 90,
    left_margin := some 0, column_gap := some 0, right_margin := some 10,
    top_margin := some 5, row_gap := some 5, bottom_margin := some 5,
    left_padding := 0, right_padding := 0, top_padding := 0, bottom_padding := 0,
    corner_radius := 0, padding_radius := 0,
    autoset := insert MField.bottomMargin (insert MField.rowGap (insert MField.topMargin
      (insert MField.columnGap (insert MField.leftMargin ∅)))) }

set_option maxRecDepth 2000 in
/-- C3 counterexample: the claim allows the `±0.01` adjustment only when the
subtraction drives the space negative and the supplied field is the last
axis field being absorbed.  Here subtracting the supplied right margin
leaves `+0.004` of space (never negative) and the left margin is still
unsupplied, yet the solver rewrites the supplied right margin from `9.996`
to `10` and assigns the auto fields `0`. -/
theorem claim_C3_counterexample :
    specSnap.left_margin = none ∧
      specSnap.right_margin = some (2499 / 250) ∧
      specSnap.sheet_width - specSnap.label_width * (specSnap.columns : ℚ) -
          2499 / 250 = 1 / 250 ∧
      (0 : ℚ) < 1 / 250 ∧
      calculate specSnap = (specSnapSolved, none) ∧
      specSnapSolved.right_margin = some 10 ∧
      specSnapSolved.right_margin ≠ specSnap.right_margin ∧
      specSnapSolved.left_margin = some 0 := by
  refine ⟨rfl, rfl, by with_unfolding_all decide, by with_unfolding_all decide, ?_,
    rfl, by with_unfolding_all decide, rfl⟩
  with_unfolding_all decide

/-- C3 (amended): on each axis the first boundary margin and the internal
gap are absorbed with no tolerance; for the last boundary margin (the right
or bottom margin), whenever the earlier subtractions leave the space
non-negative, the solver snaps the supplied value by the residue exactly
when the residue lies strictly inside `(-0.01, 0.01)` — positive or
negative, and regardless of whether other fields on the axis are still
unsupplied — setting the space to `0`; a residue `≤ -0.01` fails, and any
other residue leaves the supplied value untouched. -/
theorem claim_C3_amended (n : ℤ) (sp : ℚ) (f g : Option ℚ) (v : ℚ)
    (e1 e2 e3 : CalcError)
    (hf : ∀ w, f = some w → 0 ≤ sp - w)
    (hg : ∀ w, g = some w → 0 ≤ sp - f.getD 0 - ((n : ℚ) - 1) * w) :
    axisProc n sp f g (some v) e1 e2 e3 =
      if sp - f.getD 0 - ((n : ℚ) - 1) * g.getD 0 - v < 1 / 100 ∧
          -(1 / 100 : ℚ) < sp - f.getD 0 - ((n : ℚ) - 1) * g.getD 0 - v then
        .ok (0, 1 + n - f.elim 0 (fun _ => 1) - g.elim 0 (fun _ => n - 1) - 1,
          some (v + (sp - f.getD 0 - ((n : ℚ) - 1) * g.getD 0 - v)))
      else if sp - f.getD 0 - ((n : ℚ) - 1) * g.getD 0 - v < 0 then .error e3
      else
        .ok (sp - f.getD 0 - ((n : ℚ) - 1) * g.getD 0 - v,
          1 + n - f.elim 0 (fun _ => 1) - g.elim 0 (fun _ => n - 1) - 1,
          some v) := by
  rcases f with _ | fv <;> rcases g with _ | gv
  · simp only [axisProc, absorbFirst, absorbGap, absorbLast, Option.getD_none,
      Option.elim_none, sub_zero, mul_zero]
    try split_ifs <;>
      first
        | rfl
        | (simp only [Except.ok.injEq, Prod.mk.injEq, Option.some.injEq, true_and,
             and_true] <;> and_intros <;> first | rfl | ring | omega)
  · have hg' := hg gv rfl
    simp only [Option.getD_none, sub_zero] at hg'
    simp only [axisProc, absorbFirst, absorbGap, absorbLast, Option.getD_none,
      Option.getD_some, Option.elim_none, Option.elim_some, sub_zero, mul_zero]
    rw [if_neg (not_lt.mpr hg')]
    try dsimp only
    try split_ifs <;>
      first
        | rfl
        | (simp only [Except.ok.injEq, Prod.mk.injEq, Option.some.injEq, true_and,
             and_true] <;> and_intros <;> first | rfl | ring | omega)
  · have hf' := hf fv rfl
    simp only [axisProc, absorbFirst, absorbGap, absorbLast, Option.getD_none,
      Option.getD_some, Option.elim_none, Option.elim_some, sub_zero, mul_zero]
    rw [if_neg (not_lt.mpr hf')]
    try dsimp only
    try split_ifs <;>
      first
        | rfl
        | (simp only [Except.ok.injEq, Prod.mk.injEq, Option.some.injEq, true_and,
             and_true] <;> and_intros <;> first | rfl | ring | omega)
  · have hf' := hf fv rfl
    have hg' := hg gv rfl
    simp only [Option.getD_some] at hg'
    simp only [axisProc, absorbFirst, absorbGap, absorbLast, Option.getD_some,
      Option.elim_some]
    rw [if_neg (not_lt.mpr hf')]
    dsimp only
    rw [if_neg (not_lt.mpr hg')]
    try dsimp only
    try split_ifs <;>
      first
        | rfl
        | (simp only [Except.ok.injEq, Prod.mk.injEq, Option.some.injEq, true_and,
             and_true] <;> and_intros <;> first | rfl | ring | omega)

/-- Witness for the amended C3: the `specSnap` axis data, snapped up. -/
theorem claim_C3_amended_witness :
    ((∀ w, (none : Option ℚ) = some w → 0 ≤ (10 : ℚ) - w) ∧
      (∀ w, (none : Option ℚ) = some w →
        0 ≤ (10 : ℚ) - (none : Option ℚ).getD 0 - ((1 : ℚ) - 1) * w)) ∧
      axisProc 1 10 none none (some (2499 / 250)) CalcError.leftMarginTooWide
          CalcError.columnGapTooWide CalcError.rightMarginTooWide =
        .ok (0, 1, some 10) := by
  refine ⟨⟨fun w hw => by simp at hw, fun w hw => by simp at hw⟩, ?_⟩
  have h := claim_C3_amended 1 10 none none (2499 / 250)
    CalcError.leftMarginTooWide CalcError.columnGapTooWide CalcError.rightMarginTooWide
    (fun w hw => by simp at hw) (fun w hw => by simp at hw)
  rw [h, if_pos (by norm_num)]
  simp only [Option.getD_none, Option.elim_none, sub_zero, mul_zero, Except.ok.injEq,
    Prod.mk.injEq, Option.some.injEq]
  norm_num

/-!
## Lemmas about the property setters (claim C2)
-/

theorem getM_setM_same (s : SpecState) (f : MField) (v : Option ℚ) :
    getM (setM s f v) f = v := by
  cases f <;> rfl

theorem getM_setM_other (s : SpecState) {g f : MField} (v : Option ℚ) (h : g ≠ f) :
    getM (setM s g v) f = getM s f := by
  cases g <;> cases f <;> first | exact absurd rfl h | rfl

theorem setM_autoset (s : SpecState) (f : MField) (v : Option ℚ) :
    (setM s f v).autoset = s.autoset := by
  cases f <;> rfl

theorem getM_autoset_irrel (s : SpecState) (f : MField) (x : Finset MField) :
    getM { s with autoset := x } f = getM s f := by
  cases f <;> rfl

theorem getQ_setQ_same (s : SpecState) (f : QField) (v : ℚ) :
    getQ (setQ s f v) f = v := by
  cases f <;> rfl

theorem getZ_setZ_same (s : SpecState) (f : ZField) (v : ℤ) :
    getZ (setZ s f v) f = v := by
  cases f <;> rfl

/-- Processing any field of the margin loop keeps an explicitly supplied
margin supplied and out of `_autoset`. -/
theorem procMargin_value_mem (g f : MField) (s : SpecState) (v : ℚ)
    (hv : getM s f = some v) (hm : f ∉ s.autoset) :
    getM (procMargin g s).1 f = some v ∧ f ∉ (procMargin g s).1.autoset := by
  by_cases hgf : g = f
  · subst hgf
    unfold procMargin
    rw [hv]
    dsimp only
    rw [if_neg hm]
    split_ifs <;> exact ⟨hv, hm⟩
  · unfold procMargin
    cases hg : getM s g with
    | none =>
      dsimp only
      refine ⟨(getM_autoset_irrel s f _).trans hv, ?_⟩
      simp only [Finset.mem_insert]
      rintro (hfg | hmem)
      · exact hgf hfg.symm
      · exact hm hmem
    | some w =>
      dsimp only
      split_ifs with h1 h2
      · rw [getM_setM_other s none hgf, setM_autoset]
        exact ⟨hv, hm⟩
      · exact ⟨hv, hm⟩
      · exact ⟨hv, hm⟩

theorem runMargins_value_mem (fs : List MField) (f : MField) (s : SpecState) (v : ℚ)
    (hv : getM s f = some v) (hm : f ∉ s.autoset) :
    getM (runMargins s fs).1 f = some v ∧ f ∉ (runMargins s fs).1.autoset := by
  induction fs generalizing s with
  | nil => exact ⟨hv, hm⟩
  | cons g gs ih =>
    have hp := procMargin_value_mem g f s v hv hm
    unfold runMargins
    cases hpm : procMargin g s with
    | mk s2 oe =>
      rw [hpm] at hp
      cases oe with
      | none => exact ih s2 hp.1 hp.2
      | some e => exact hp

theorem marginPass_fst (s : SpecState) :
    (marginPass s).1 = (runMargins s marginOrder).1 := by
  unfold marginPass
  cases h : runMargins s marginOrder with
  | mk s1 oe => cases oe <;> rfl

/-- `solveAxes` never modifies `_autoset`. -/
theorem solveAxes_autoset (s : SpecState) : (solveAxes s).1.autoset = s.autoset := by
  unfold solveAxes
  dsimp only
  split_ifs with hW hV
  · rfl
  · rfl
  cases hH : axisProc s.columns (s.sheet_width - s.label_width * (s.columns : ℚ))
      s.left_margin s.column_gap s.right_margin CalcError.leftMarginTooWide
      CalcError.columnGapTooWide CalcError.rightMarginTooWide with
  | error e => rfl
  | ok tH =>
    obtain ⟨hs, hcount, rm⟩ := tH
    dsimp only
    cases hVx : axisProc s.rows (s.sheet_height - s.label_height * (s.rows : ℚ))
        s.top_margin s.row_gap s.bottom_margin CalcError.topMarginTooTall
        CalcError.rowGapTooTall CalcError.bottomMarginTooTall with
    | error e => rfl
    | ok tV =>
      obtain ⟨vs, vcount, bm⟩ := tV
      dsimp only
      split_ifs <;> rfl

/-- A field that is explicitly set (to a value, not `None`) and not autoset
stays out of `_autoset` through a whole `_calculate` run, including a
failing one. -/
theorem calculate_mem_autoset (s : SpecState) (f : MField) (v : ℚ)
    (hv : getM s f = some v) (hm : f ∉ s.autoset) :
    f ∉ ((calculate s).1).autoset := by
  unfold calculate
  cases hcp : checkPositive s with
  | some e => exact hm
  | none =>
    dsimp only
    cases hmp : marginPass s with
    | mk s1 oe =>
      have hrm := runMargins_value_mem marginOrder f s v hv hm
      have hfst := marginPass_fst s
      rw [hmp] at hfst
      rw [← hfst] at hrm
      cases oe with
      | some e => exact hrm.2
      | none =>
        dsimp only
        cases hcc : checkCornerPadding s1 with
        | some e => exact hrm.2
        | none =>
          dsimp only
          rw [solveAxes_autoset]
          exact hrm.2

/-- C2 (amended): a failed single-field mutation through a property setter
surfaces the error and restores the mutated attribute itself — both its
value and whether it was auto-computed — for every margin, rational, and
integer attribute.  (The claim's further assertion, that the whole object
is restored, fails: see the counterexample.) -/
theorem claim_C2_amended (s : SpecState) :
    (∀ (f : MField) (v : ℚ) (s' : SpecState) (e : CalcError),
        setMarginProp s f (some v) = (s', some e) →
        getM s' f = getM s f ∧ (f ∈ s'.autoset ↔ f ∈ s.autoset)) ∧
    (∀ (f : QField) (v : ℚ) (s' : SpecState) (e : CalcError),
        setQProp s f v = (s', some e) → getQ s' f = getQ s f) ∧
    (∀ (f : ZField) (v : ℤ) (s' : SpecState) (e : CalcError),
        setZProp s f v = (s', some e) → getZ s' f = getZ s f) := by
  refine ⟨?_, ?_, ?_⟩
  · intro f v s' e h
    unfold setMarginProp at h
    dsimp only at h
    cases hc : calculate (setM { s with autoset := s.autoset.erase f } f (some v)) with
    | mk s3 oe =>
      rw [hc] at h
      cases oe with
      | none => exact absurd h (by simp)
      | some e2 =>
        dsimp only at h
        split_ifs at h with hw
        · obtain ⟨hs', _⟩ := Prod.mk.injEq .. |>.mp h
          subst hs'
          constructor
          · rw [getM_autoset_irrel, getM_setM_same]
          · simp [Finset.mem_insert, setM_autoset, hw]
        · obtain ⟨hs', _⟩ := Prod.mk.injEq .. |>.mp h
          subst hs'
          constructor
          · rw [getM_setM_same]
          · have h3 : f ∉ s3.autoset := by
              have := calculate_mem_autoset
                (setM { s with autoset := s.autoset.erase f } f (some v)) f v
                (getM_setM_same _ f (some v)) (by
                  rw [setM_autoset]
                  exact Finset.not_mem_erase f s.autoset)
              rw [hc] at this
              exact this
            rw [setM_autoset]
            exact ⟨fun hf => absurd hf h3, fun hf => absurd hf hw⟩
  · intro f v s' e h
    unfold setQProp at h
    dsimp only at h
    cases hc : calculate (setQ s f v) with
    | mk s3 oe =>
      rw [hc] at h
      cases oe with
      | none => exact absurd h (by simp)
      | some e2 =>
        dsimp only at h
        obtain ⟨hs', _⟩ := Prod.mk.injEq .. |>.mp h
        subst hs'
        rw [getQ_setQ_same]
  · intro f v s' e h
    unfold setZProp at h
    dsimp only at h
    cases hc : calculate (setZ s f v) with
    | mk s3 oe =>
      rw [hc] at h
      cases oe with
      | none => exact absurd h (by simp)
      | some e2 =>
        dsimp only at h
        obtain ⟨hs', _⟩ := Prod.mk.injEq .. |>.mp h
        subst hs'
        rw [getZ_setZ_same]

/-- A solved square specification: `100×100`, one `50×50` label, all six
margins auto-computed to `25`. -/
def specSquare : SpecState :=
  initSpec 100 100 1 1 50 50 none none none none none none 0 0 0 0 0 0

/-- The solved form of `specSquare`. -/
def specSquareSolved : SpecState :=
  { sheet_width := 100, sheet_height := 100, columns := 1, rows := 1,
    label_width := 50, label_height := 50,
    left_margin := some 25, column_gap := some 25, right_margin := some 25,
    top_margin := some 25, row_gap := some 25, bottom_margin := some 25,
    left_padding := 0, right_padding := 0, top_padding := 0, bottom_padding := 0,
    corner_radius := 0, padding_radius := 0,
    autoset := insert MField.bottomMargin (insert MField.rowGap (insert MField.topMargin
      (insert MField.rightMargin (insert MField.columnGap (insert MField.leftMargin ∅))))) }

/-- The state left behind by the failed mutation `sheet_width := 40`. -/
def specSquareFail : SpecState := (setQProp specSquareSolved QField.sheetWidth 40).1

set_option maxRecDepth 2000 in
/-- C2 counterexample: mutating `sheet_width` of a solved all-auto
specification to `40` (too small for the `50`-wide label) raises and
restores `sheet_width`, but the auto-computed margins, which `_calculate`
reset to `None` before failing, are left unset: the object is *not*
restored to its pre-mutation state. -/
theorem claim_C2_counterexample :
    calculate specSquare = (specSquareSolved, none) ∧
      specSquareSolved.left_margin = some 25 ∧
      (setQProp specSquareSolved QField.sheetWidth 40).2 = some CalcError.tooWide ∧
      specSquareFail.sheet_width = specSquareSolved.sheet_width ∧
      specSquareFail.left_margin = none ∧
      specSquareFail ≠ specSquareSolved := by
  refine ⟨by with_unfolding_all decide, rfl, by with_unfolding_all decide,
    by with_unfolding_all decide, by with_unfolding_all decide,
    by with_unfolding_all decide⟩

set_option maxRecDepth 2000 in
/-- Witness for the amended C2: the same failed mutation restores the
mutated field itself. -/
theorem claim_C2_amended_witness :
    setQProp specSquareSolved QField.sheetWidth 40 =
        (specSquareFail, some CalcError.tooWide) ∧
      getQ specSquareFail QField.sheetWidth = getQ specSquareSolved QField.sheetWidth :=
  ⟨by with_unfolding_all decide,
    (claim_C2_amended specSquareSolved).2.1 QField.sheetWidth 40 specSquareFail
      CalcError.tooWide (by with_unfolding_all decide)⟩

/-!
## Lemmas about the layout engine
-/

theorem nextLabel_base {α : Type} (s : SheetState α) :
    (nextLabel s).specs = s.specs ∧ (nextLabel s).pages_to_draw = s.pages_to_draw ∧
      (nextLabel s).shade_missing = s.shade_missing ∧
      (nextLabel s).renderLog = s.renderLog ∧
      (nextLabel s).label_count = s.label_count := by
  unfold nextLabel
  split
  · exact ⟨rfl, rfl, rfl, rfl, rfl⟩
  · split
    · exact ⟨rfl, rfl, rfl, rfl, rfl⟩
    · split <;> exact ⟨rfl, rfl, rfl, rfl, rfl⟩

theorem nextLabel_pages {α : Type} (s : SheetState α) :
    ((nextLabel s).pages = s.pages ∧ (nextLabel s).page_count = s.page_count ∧
        1 ≤ s.page_count) ∨
      ((nextLabel s).pages = s.pages ++ [[]] ∧
        (nextLabel s).page_count = s.page_count + 1) := by
  unfold nextLabel newPage
  dsimp only
  split_ifs with h1 h2 h3
  · exact Or.inr ⟨rfl, rfl⟩
  · exact Or.inr ⟨rfl, rfl⟩
  · exact Or.inl ⟨rfl, rfl, by omega⟩
  · exact Or.inl ⟨rfl, rfl, by omega⟩

theorem nextLabel_wf {α : Type} (s : SheetState α) (h : s.pages.length = s.page_count) :
    (nextLabel s).pages.length = (nextLabel s).page_count ∧
      1 ≤ (nextLabel s).page_count := by
  rcases nextLabel_pages s with ⟨hp, hc, hge⟩ | ⟨hp, hc⟩
  · rw [hp, hc]
    exact ⟨h, hge⟩
  · rw [hp, hc, List.length_append, h]
    exact ⟨rfl, by omega⟩

theorem pageLabels_append {α : Type} (xs ys : List (ContentItem α)) :
    pageLabels (xs ++ ys) = pageLabels xs ++ pageLabels ys := by
  simp [pageLabels, List.filterMap_append]

theorem placementsFrom_append_nil {α : Type} (k : ℕ)
    (pages : List (List (ContentItem α))) :
    placementsFrom k (pages ++ [([] : List (ContentItem α))]) = placementsFrom k pages := by
  induction pages generalizing k with
  | nil => simp [placementsFrom, pageLabels]
  | cons p ps ih => simp [placementsFrom, ih]

theorem placementList_nextLabel {α : Type} (s : SheetState α) :
    placementList (nextLabel s) = placementList s := by
  rcases nextLabel_pages s with ⟨hp, _, _⟩ | ⟨hp, _⟩ <;>
    simp [placementList, hp, placementsFrom_append_nil]

theorem addItem_length {α : Type} (pages : List (List (ContentItem α)))
    (it : ContentItem α) : (addItem pages it).length = pages.length := by
  induction pages with
  | nil => rfl
  | cons p ps ih =>
    cases ps with
    | nil => rfl
    | cons q qs => simpa [addItem] using ih

theorem placementsFrom_cons {α : Type} (k : ℕ) (p : List (ContentItem α))
    (ps : List (List (ContentItem α))) :
    placementsFrom k (p :: ps) =
      (pageLabels p).map (fun q => (k, q.1, q.2)) ++ placementsFrom (k + 1) ps := rfl

theorem placementsFrom_addItem_shade {α : Type} (k : ℕ)
    (pages : List (List (ContentItem α))) (e : ℚ × ℚ) :
    placementsFrom k (addItem pages (.shade e)) = placementsFrom k pages := by
  induction pages generalizing k with
  | nil => rfl
  | cons p ps ih =>
    cases ps with
    | nil => simp [addItem, placementsFrom, pageLabels_append, pageLabels]
    | cons q qs =>
      have h1 : addItem (p :: q :: qs) (ContentItem.shade e) =
          p :: addItem (q :: qs) (.shade e) := rfl
      rw [h1, placementsFrom_cons, placementsFrom_cons, ih]

theorem placementsFrom_addItem_label {α : Type} (k : ℕ)
    (pages : List (List (ContentItem α))) (hne : pages ≠ []) (o : α) (e : ℚ × ℚ) :
    placementsFrom k (addItem pages (.label o e)) =
      placementsFrom k pages ++ [(k + pages.length - 1, o, e)] := by
  induction pages generalizing k with
  | nil => exact absurd rfl hne
  | cons p ps ih =>
    cases ps with
    | nil => simp [addItem, placementsFrom, pageLabels_append, pageLabels]
    | cons q qs =>
      have h1 : addItem (p :: q :: qs) (ContentItem.label o e) =
          p :: addItem (q :: qs) (.label o e) := rfl
      rw [h1, placementsFrom_cons, placementsFrom_cons, ih (k + 1) (by simp),
        ← List.append_assoc]
      have h2 : k + 1 + (q :: qs).length - 1 = k + (p :: q :: qs).length - 1 := by
        simp only [List.length_cons]
        omega
      rw [h2]

theorem shadeMissingLabel_base {α : Type} (s : SheetState α) :
    (shadeMissingLabel s).specs = s.specs ∧
      (shadeMissingLabel s).pages_to_draw = s.pages_to_draw ∧
      (shadeMissingLabel s).shade_missing = s.shade_missing ∧
      (shadeMissingLabel s).renderLog = s.renderLog ∧
      (shadeMissingLabel s).label_count = s.label_count ∧
      (shadeMissingLabel s).page_count = s.page_count ∧
      (shadeMissingLabel s).position = s.position :=
  ⟨rfl, rfl, rfl, rfl, rfl, rfl, rfl⟩

theorem placementList_shadeMissingLabel {α : Type} (s : SheetState α) :
    placementList (shadeMissingLabel s) = placementList s :=
  placementsFrom_addItem_shade 1 s.pages _

theorem shadeMissingLabel_pages_length {α : Type} (s : SheetState α) :
    (shadeMissingLabel s).pages.length = s.pages.length :=
  addItem_length s.pages _

theorem occs_append_nil {α : Type} [DecidableEq α] (x : α)
    (pages : List (List (ContentItem α))) :
    (((pages ++ [([] : List (ContentItem α))]).map (List.countP (occPred x))).sum) =
      ((pages.map (List.countP (occPred x))).sum) := by
  simp

theorem labelOccs_nextLabel {α : Type} [DecidableEq α] (s : SheetState α) (x : α) :
    labelOccs (nextLabel s) x = labelOccs s x := by
  rcases nextLabel_pages s with ⟨hp, _, _⟩ | ⟨hp, _⟩ <;>
    simp [labelOccs, hp]

theorem occs_addItem {α : Type} [DecidableEq α] (x : α)
    (pages : List (List (ContentItem α))) (hne : pages ≠ []) (it : ContentItem α) :
    ((addItem pages it).map (List.countP (occPred x))).sum =
      (pages.map (List.countP (occPred x))).sum + (if occPred x it then 1 else 0) := by
  induction pages with
  | nil => exact absurd rfl hne
  | cons p ps ih =>
    cases ps with
    | nil => simp [addItem, List.countP_append, List.countP_cons]
    | cons q qs =>
      have h1 : addItem (p :: q :: qs) it = p :: addItem (q :: qs) it := rfl
      rw [h1]
      simp only [List.map_cons, List.sum_cons, ih (by simp)]
      omega

theorem labelOccs_shadeMissingLabel {α : Type} [DecidableEq α] (s : SheetState α)
    (x : α) (hne : s.pages ≠ []) :
    labelOccs (shadeMissingLabel s) x = labelOccs s x := by
  unfold labelOccs shadeMissingLabel
  dsimp only
  rw [occs_addItem x s.pages hne]
  simp [occPred]

theorem loopStep_base {α : Type} (s : SheetState α) :
    (loopStep s).specs = s.specs ∧ (loopStep s).pages_to_draw = s.pages_to_draw ∧
      (loopStep s).shade_missing = s.shade_missing ∧
      (loopStep s).renderLog = s.renderLog ∧
      (loopStep s).label_count = s.label_count := by
  unfold loopStep
  dsimp only
  have hb := nextLabel_base
    (if ({ s with used := usedDiscard s.used s.page_count s.position } :
        SheetState α).shade_missing = true then
      shadeMissingLabel { s with used := usedDiscard s.used s.page_count s.position }
    else { s with used := usedDiscard s.used s.page_count s.position })
  refine ⟨hb.1.trans ?_, hb.2.1.trans ?_, hb.2.2.1.trans ?_, hb.2.2.2.1.trans ?_,
    hb.2.2.2.2.trans ?_⟩ <;> split <;> rfl

theorem loopStep_placements {α : Type} (s : SheetState α) :
    placementList (loopStep s) = placementList s := by
  unfold loopStep
  dsimp only
  rw [placementList_nextLabel]
  split
  · rw [placementList_shadeMissingLabel]
    rfl
  · rfl


theorem labelOccs_anyPages {α : Type} [DecidableEq α] (s : SheetState α) (x : α) :
    labelOccs (shadeMissingLabel s) x = labelOccs s x := by
  by_cases h : s.pages = []
  · unfold labelOccs shadeMissingLabel
    rw [h]
    rfl
  · exact labelOccs_shadeMissingLabel s x h

theorem loopStep_occs {α : Type} [DecidableEq α] (s : SheetState α) (x : α) :
    labelOccs (loopStep s) x = labelOccs s x := by
  unfold loopStep
  dsimp only
  rw [labelOccs_nextLabel]
  split
  · rw [labelOccs_anyPages]
    rfl
  · rfl

theorem loopStep_wf {α : Type} (s : SheetState α) (h : s.pages.length = s.page_count) :
    (loopStep s).pages.length = (loopStep s).page_count := by
  unfold loopStep
  dsimp only
  refine (nextLabel_wf _ ?_).1
  split
  · rw [shadeMissingLabel_pages_length]
    exact h
  · exact h

theorem loopStep_pc {α : Type} (s : SheetState α) : 1 ≤ (loopStep s).page_count := by
  unfold loopStep
  dsimp only
  rcases nextLabel_pages
    (if ({ s with used := usedDiscard s.used s.page_count s.position } :
        SheetState α).shade_missing = true then
      shadeMissingLabel { s with used := usedDiscard s.used s.page_count s.position }
    else { s with used := usedDiscard s.used s.page_count s.position }) with
    ⟨_, hc, hge⟩ | ⟨_, hc⟩
  · rw [hc]
    revert hge
    split <;> exact fun h => h
  · rw [hc]
    omega

/-- Preservation of the engine state components the loop does not touch,
by induction on the fuel. -/
theorem loopF_pres {α : Type} [DecidableEq α] (x : α) :
    ∀ (fuel : ℕ) (s : SheetState α),
      (nextUnusedLoopF fuel s).1.specs = s.specs ∧
      (nextUnusedLoopF fuel s).1.pages_to_draw = s.pages_to_draw ∧
      (nextUnusedLoopF fuel s).1.shade_missing = s.shade_missing ∧
      (nextUnusedLoopF fuel s).1.renderLog = s.renderLog ∧
      (nextUnusedLoopF fuel s).1.label_count = s.label_count ∧
      placementList (nextUnusedLoopF fuel s).1 = placementList s ∧
      labelOccs (nextUnusedLoopF fuel s).1 x = labelOccs s x ∧
      (s.pages.length = s.page_count →
        (nextUnusedLoopF fuel s).1.pages.length = (nextUnusedLoopF fuel s).1.page_count) ∧
      (1 ≤ s.page_count → 1 ≤ (nextUnusedLoopF fuel s).1.page_count) := by
  intro fuel
  induction fuel with
  | zero =>
    intro s
    exact ⟨rfl, rfl, rfl, rfl, rfl, rfl, rfl, fun h => h, fun h => h⟩
  | succ f ih =>
    intro s
    unfold nextUnusedLoopF
    dsimp only
    split
    · have hstep := ih (loopStep s)
      have hb := loopStep_base s
      refine ⟨hstep.1.trans hb.1, hstep.2.1.trans hb.2.1, hstep.2.2.1.trans hb.2.2.1,
        hstep.2.2.2.1.trans hb.2.2.2.1, hstep.2.2.2.2.1.trans hb.2.2.2.2,
        hstep.2.2.2.2.2.1.trans (loopStep_placements s),
        hstep.2.2.2.2.2.2.1.trans (loopStep_occs s x), ?_, ?_⟩
      · intro h
        exact hstep.2.2.2.2.2.2.2.1 (loopStep_wf s h)
      · intro _
        exact hstep.2.2.2.2.2.2.2.2 (loopStep_pc s)
    · exact ⟨rfl, rfl, rfl, rfl, rfl, rfl, rfl, fun h => h, fun h => h⟩

theorem nextLabel_pc {α : Type} (s : SheetState α) : 1 ≤ (nextLabel s).page_count := by
  rcases nextLabel_pages s with ⟨_, hc, hge⟩ | ⟨_, hc⟩
  · rw [hc]; exact hge
  · rw [hc]; omega

theorem slotLt_trans {a b c : ℕ × (ℤ × ℤ)} (h1 : slotLt a b) (h2 : slotLt b c) :
    slotLt a c := by
  unfold slotLt at *
  omega

theorem slotLt_nextLabel {α : Type} (s : SheetState α) :
    slotLt (slotOf s) (slotOf (nextLabel s)) := by
  unfold nextLabel newPage slotOf slotLt
  dsimp only
  split_ifs with h1 h2 h3 <;> (try dsimp only) <;> omega

theorem slotOf_loopStep {α : Type} (s : SheetState α) :
    slotLt (slotOf s) (slotOf (loopStep s)) := by
  unfold loopStep
  dsimp only
  have h := slotLt_nextLabel
    (if ({ s with used := usedDiscard s.used s.page_count s.position } :
        SheetState α).shade_missing = true then
      shadeMissingLabel { s with used := usedDiscard s.used s.page_count s.position }
    else { s with used := usedDiscard s.used s.page_count s.position })
  have he : slotOf
      (if ({ s with used := usedDiscard s.used s.page_count s.position } :
          SheetState α).shade_missing = true then
        shadeMissingLabel { s with used := usedDiscard s.used s.page_count s.position }
      else { s with used := usedDiscard s.used s.page_count s.position }) = slotOf s := by
    split <;> rfl
  rw [he] at h
  exact h

theorem loopF_slot {α : Type} :
    ∀ (fuel : ℕ) (s : SheetState α),
      slotOf (nextUnusedLoopF fuel s).1 = slotOf s ∨
        slotLt (slotOf s) (slotOf (nextUnusedLoopF fuel s).1) := by
  intro fuel
  induction fuel with
  | zero => intro s; exact Or.inl rfl
  | succ f ih =>
    intro s
    unfold nextUnusedLoopF
    dsimp only
    split
    · rcases ih (loopStep s) with h | h
      · exact Or.inr (by rw [h]; exact slotOf_loopStep s)
      · exact Or.inr (slotLt_trans (slotOf_loopStep s) h)
    · exact Or.inl rfl

theorem nextUnusedLabel_spec {α : Type} [DecidableEq α] (x : α) (s : SheetState α) :
    (nextUnusedLabel s).specs = s.specs ∧
      (nextUnusedLabel s).pages_to_draw = s.pages_to_draw ∧
      (nextUnusedLabel s).shade_missing = s.shade_missing ∧
      (nextUnusedLabel s).renderLog = s.renderLog ∧
      placementList (nextUnusedLabel s) = placementList s ∧
      labelOccs (nextUnusedLabel s) x = labelOccs s x ∧
      (s.pages.length = s.page_count →
        (nextUnusedLabel s).pages.length = (nextUnusedLabel s).page_count) ∧
      1 ≤ (nextUnusedLabel s).page_count ∧
      slotLt (slotOf s) (slotOf (nextUnusedLabel s)) := by
  unfold nextUnusedLabel nextUnusedLoop
  dsimp only
  have hb := nextLabel_base s
  have hp := loopF_pres x (usedSize (nextLabel s).used + 1) (nextLabel s)
  have hslot := loopF_slot (usedSize (nextLabel s).used + 1) (nextLabel s)
  obtain ⟨p1, p2, p3, p4, p5, p6, p7, p8, p9⟩ := hp
  refine ⟨p1.trans hb.1, p2.trans hb.2.1, p3.trans hb.2.2.1, p4.trans hb.2.2.2.1,
    p6.trans (placementList_nextLabel s), p7.trans (labelOccs_nextLabel s x),
    fun h => p8 ((nextLabel_wf s h).1), p9 (nextLabel_pc s), ?_⟩
  rcases hslot with h | h
  · have hx := slotLt_nextLabel s
    rw [← h] at hx
    exact hx
  · exact slotLt_trans (slotLt_nextLabel s) h

theorem shouldSkip_none {α : Type} (s : SheetState α) (h : s.pages_to_draw = none) :
    shouldSkip s = false := by
  unfold shouldSkip
  rw [h]

theorem drawLoop_render {α : Type} [DecidableEq α] (x : α) :
    ∀ (n : ℕ) (s : SheetState α), (drawLoop s x n).renderLog = s.renderLog := by
  intro n
  induction n with
  | zero => intro s; rfl
  | succ k ih =>
    intro s
    unfold drawLoop
    dsimp only
    rw [ih]
    split
    · exact (nextUnusedLabel_spec x s).2.2.2.1
    · exact (nextUnusedLabel_spec x s).2.2.2.1

theorem drawTrace_length {α : Type} (x : α) :
    ∀ (n : ℕ) (s : SheetState α), (drawTrace x s n).length = n := by
  intro n
  induction n with
  | zero => intro s; rfl
  | succ k ih =>
    intro s
    unfold drawTrace
    dsimp only
    rw [List.length_cons, ih]

theorem drawTrace_chain {α : Type} [DecidableEq α] (x : α) :
    ∀ (n : ℕ) (s : SheetState α),
      List.Chain slotLt (slotOf s) ((drawTrace x s n).map Prod.fst) := by
  intro n
  induction n with
  | zero => intro s; exact List.Chain.nil
  | succ k ih =>
    intro s
    unfold drawTrace
    dsimp only
    rw [List.map_cons]
    dsimp only
    refine List.chain_cons.mpr ⟨(nextUnusedLabel_spec x s).2.2.2.2.2.2.2.2, ?_⟩
    split
    · exact ih _
    · exact ih ({ nextUnusedLabel s with pages := addItem (nextUnusedLabel s).pages (.label x
        (edgesAt (nextUnusedLabel s).specs (nextUnusedLabel s).position)) })

instance slotLtTrans : IsTrans (ℕ × (ℤ × ℤ)) slotLt :=
  ⟨fun _ _ _ h1 h2 => slotLt_trans h1 h2⟩

theorem drawTrace_pairwise {α : Type} [DecidableEq α] (x : α) (n : ℕ) (s : SheetState α) :
    List.Pairwise (fun a b => slotLt a.1 b.1) (drawTrace x s n) := by
  have hp := List.Chain.pairwise (drawTrace_chain x n s)
  exact List.pairwise_map.mp (List.pairwise_cons.mp hp).2

/-- The accounting of the placement loop of `Sheet._draw_label` when no
page filter is active: each copy lands on a (necessarily non-empty) current
page, appending exactly the placements recorded by `drawTrace`; the object
count grows by exactly `n` and the page invariant is preserved. -/
theorem drawLoop_spec {α : Type} [DecidableEq α] (x : α) :
    ∀ (n : ℕ) (s : SheetState α), s.pages_to_draw = none →
      s.pages.length = s.page_count →
      placementList (drawLoop s x n) =
        placementList s ++ (drawTrace x s n).map (fun t => (t.1.1, x, t.2)) ∧
      labelOccs (drawLoop s x n) x = labelOccs s x + n ∧
      (drawLoop s x n).pages.length = (drawLoop s x n).page_count ∧
      (drawLoop s x n).pages_to_draw = none ∧
      (drawLoop s x n).specs = s.specs ∧
      (drawLoop s x n).shade_missing = s.shade_missing := by
  intro n
  induction n with
  | zero =>
    intro s hptd hwf
    exact ⟨by simp [drawLoop, drawTrace], by simp [drawLoop], hwf, hptd, rfl, rfl⟩
  | succ k ih =>
    intro s hptd hwf
    obtain ⟨h1sp, h1ptd, h1sh, h1rl, h1pl, h1occ, h1wf, h1pc, h1slot⟩ :=
      nextUnusedLabel_spec x s
    have hwf1 : (nextUnusedLabel s).pages.length = (nextUnusedLabel s).page_count :=
      h1wf hwf
    have hne1 : (nextUnusedLabel s).pages ≠ [] := by
      intro hc
      rw [hc] at hwf1
      simp only [List.length_nil] at hwf1
      omega
    have hskip : shouldSkip (nextUnusedLabel s) = false :=
      shouldSkip_none _ (h1ptd.trans hptd)
    have hpl2 : placementList ({ nextUnusedLabel s with
        pages := addItem (nextUnusedLabel s).pages (.label x
          (edgesAt (nextUnusedLabel s).specs (nextUnusedLabel s).position)) } :
          SheetState α) =
        placementList (nextUnusedLabel s) ++ [((nextUnusedLabel s).page_count, x,
          edgesAt (nextUnusedLabel s).specs (nextUnusedLabel s).position)] := by
      unfold placementList
      dsimp only
      rw [placementsFrom_addItem_label 1 _ hne1]
      rw [show 1 + (nextUnusedLabel s).pages.length - 1 =
        (nextUnusedLabel s).page_count from by omega]
    have hocc2 : labelOccs ({ nextUnusedLabel s with
        pages := addItem (nextUnusedLabel s).pages (.label x
          (edgesAt (nextUnusedLabel s).specs (nextUnusedLabel s).position)) } :
          SheetState α) x = labelOccs (nextUnusedLabel s) x + 1 := by
      unfold labelOccs
      dsimp only
      rw [occs_addItem x _ hne1]
      simp [occPred]
    have hwf2 : (addItem (nextUnusedLabel s).pages (ContentItem.label x
        (edgesAt (nextUnusedLabel s).specs (nextUnusedLabel s).position))).length =
        (nextUnusedLabel s).page_count := by
      rw [addItem_length]
      exact hwf1
    have key := ih ({ nextUnusedLabel s with
      pages := addItem (nextUnusedLabel s).pages (.label x
        (edgesAt (nextUnusedLabel s).specs (nextUnusedLabel s).position)) })
      (h1ptd.trans hptd) hwf2
    unfold drawLoop drawTrace
    dsimp only
    simp only [hskip, Bool.false_eq_true, if_false]
    refine ⟨?_, ?_, key.2.2.1, key.2.2.2.1, key.2.2.2.2.1.trans h1sp,
      key.2.2.2.2.2.trans h1sh⟩
    · rw [key.1, hpl2, h1pl, List.map_cons, List.append_assoc]
      rfl
    · rw [key.2.1, hocc2, h1occ]
      omega

/-- A sheet over the solved one-by-one specification, no page filter, no
border, no shading. -/
def sheet11 : SheetState ℕ := mkSheetState specSquareSolved none false false

/-- C5 (amended): `add_label(x, count=n)` invokes the drawing callable
exactly once for `x` (one entry appended to the render log), and — when no
page filter is active — places exactly `n` copies, one per call step,
recorded by `drawTrace`: the copies land on strictly increasing cursor
slots (page, row, column), so the placements are pairwise distinct as
slots; but their rectangles need not be pairwise distinct, because copies
on different pages reuse the same in-page coordinates. -/
theorem claim_C5_amended {α : Type} [DecidableEq α] (s : SheetState α) (x : α) (n : ℕ)
    (hptd : s.pages_to_draw = none) (hwf : WF s) :
    (addLabel s x n).renderLog = s.renderLog ++ [x] ∧
      labelOccs (addLabel s x n) x = labelOccs s x + n ∧
      placementList (addLabel s x n) = placementList s ++
        (drawTrace x { s with renderLog := s.renderLog ++ [x] } n).map
          (fun t => (t.1.1, x, t.2)) ∧
      (drawTrace x { s with renderLog := s.renderLog ++ [x] } n).length = n ∧
      List.Pairwise (fun a b => slotLt a.1 b.1)
        (drawTrace x { s with renderLog := s.renderLog ++ [x] } n) := by
  have hD := drawLoop_spec x n ({ s with renderLog := s.renderLog ++ [x] }) hptd hwf
  exact ⟨drawLoop_render x n _, hD.2.1, hD.1, drawTrace_length x n _,
    drawTrace_pairwise x n _⟩

/-- Witness for the amended C5 at a concrete sheet. -/
theorem claim_C5_amended_witness :
    sheet11.pages_to_draw = none ∧ WF sheet11 ∧
      ((addLabel sheet11 7 3).renderLog = sheet11.renderLog ++ [7] ∧
        labelOccs (addLabel sheet11 7 3) 7 = labelOccs sheet11 7 + 3 ∧
        placementList (addLabel sheet11 7 3) = placementList sheet11 ++
          (drawTrace 7 { sheet11 with renderLog := sheet11.renderLog ++ [7] } 3).map
            (fun t => (t.1.1, 7, t.2)) ∧
        (drawTrace 7 { sheet11 with renderLog := sheet11.renderLog ++ [7] } 3).length = 3 ∧
        List.Pairwise (fun a b => slotLt a.1 b.1)
          (drawTrace 7 { sheet11 with renderLog := sheet11.renderLog ++ [7] } 3)) :=
  ⟨rfl, rfl, claim_C5_amended sheet11 7 3 rfl rfl⟩

/-- A 90-by-90 sheet carrying a 2-by-2 grid of 30-by-30 labels, all margins
auto. -/
def spec22 : SpecState :=
  initSpec 90 90 2 2 30 30 none none none none none none 0 0 0 0 0 0

/-- The solved form of `spec22`: every margin and gap comes out as 10. -/
def spec22Solved : SpecState :=
  { sheet_width := 90, sheet_height := 90, columns := 2, rows := 2,
    label_width := 30, label_height := 30,
    left_margin := some 10, column_gap := some 10, right_margin := some 10,
    top_margin := some 10, row_gap := some 10, bottom_margin := some 10,
    left_padding := 0, right_padding := 0, top_padding := 0, bottom_padding := 0,
    corner_radius := 0, padding_radius := 0,
    autoset := insert MField.bottomMargin (insert MField.rowGap (insert MField.topMargin
      (insert MField.rightMargin (insert MField.columnGap (insert MField.leftMargin ∅))))) }

/-- A fresh sheet over the solved 2-by-2 specification. -/
def sheet22 : SheetState ℕ := mkSheetState spec22Solved none false false

theorem insertCoord_mem (u : List (ℤ × ℤ)) (q p : ℤ × ℤ) :
    p ∈ insertCoord u q ↔ p ∈ u ∨ p = q := by
  unfold insertCoord
  split_ifs with h
  · constructor
    · exact Or.inl
    · rintro (hp | rfl)
      · exact hp
      · exact h
  · simp [List.mem_append]

theorem addCoords_none_iff (nr nc : ℤ) :
    ∀ (cs u0 : List (ℤ × ℤ)),
      (addCoords nr nc u0 cs).2 = none ↔
        ∀ p ∈ cs, 1 ≤ p.1 ∧ p.1 ≤ nr ∧ 1 ≤ p.2 ∧ p.2 ≤ nc := by
  intro cs
  induction cs with
  | nil =>
    intro u0
    simp [addCoords]
  | cons q rest ih =>
    intro u0
    obtain ⟨r, c⟩ := q
    unfold addCoords
    split_ifs with h1 h2
    · constructor
      · intro h
        exact absurd h (by simp)
      · intro hall
        exfalso
        have hb := hall (r, c) (by simp)
        dsimp only at hb
        omega
    · constructor
      · intro h
        exact absurd h (by simp)
      · intro hall
        exfalso
        have hb := hall (r, c) (by simp)
        dsimp only at hb
        omega
    · rw [ih]
      simp only [List.mem_cons]
      constructor
      · rintro h p (rfl | hp)
        · refine ⟨by omega, by omega, by omega, by omega⟩
        · exact h p hp
      · intro h p hp
        exact h p (Or.inr hp)

theorem addCoords_mem (nr nc : ℤ) :
    ∀ (cs u0 : List (ℤ × ℤ)), (addCoords nr nc u0 cs).2 = none →
      ∀ p, p ∈ (addCoords nr nc u0 cs).1 ↔ p ∈ u0 ∨ p ∈ cs := by
  intro cs
  induction cs with
  | nil =>
    intro u0 _ p
    simp [addCoords]
  | cons q rest ih =>
    intro u0 h p
    obtain ⟨r, c⟩ := q
    unfold addCoords at h ⊢
    split_ifs at h ⊢ with h1 h2
    rw [ih _ h p, insertCoord_mem]
    simp only [List.mem_cons]
    tauto

/-- C6 (amended): `partial_page(page, used_labels)` fails with
`PageAlreadyStarted` when `page ≤ page_count`; the coordinate scan accepts
the list exactly when every pair lies in `[1, rows] × [1, columns]`, in
which case the page's consumed set becomes the union of its previous
content and the given coordinates.  On a failed scan, however, the registry
is rolled back only when the page had no prior entry: the source mutates
the page's stored set in place, so when the page already has an entry the
coordinates validated before the failure stay registered. -/
theorem claim_C6_amended {α : Type} (s : SheetState α) (page : ℕ) (coords : List (ℤ × ℤ)) :
    (page ≤ s.page_count →
      partialPage s page coords = (s, some SheetError.pageAlreadyStarted)) ∧
    ((addCoords s.specs.rows s.specs.columns (lookupUsed s.used page) coords).2 = none ↔
      ∀ p ∈ coords, 1 ≤ p.1 ∧ p.1 ≤ s.specs.rows ∧ 1 ≤ p.2 ∧ p.2 ≤ s.specs.columns) ∧
    (page > s.page_count →
      (∀ u, addCoords s.specs.rows s.specs.columns (lookupUsed s.used page) coords =
          (u, none) →
        partialPage s page coords = ({ s with used := setUsedEntry s.used page u }, none) ∧
        (∀ p, p ∈ u ↔ p ∈ lookupUsed s.used page ∨ p ∈ coords)) ∧
      (∀ u e, addCoords s.specs.rows s.specs.columns (lookupUsed s.used page) coords =
          (u, some e) →
        partialPage s page coords =
          if hasPage s.used page then ({ s with used := setUsedEntry s.used page u }, some e)
          else (s, some e))) := by
  refine ⟨?_, addCoords_none_iff _ _ coords _, ?_⟩
  · intro h
    unfold partialPage
    rw [if_pos h]
  · intro hgt
    constructor
    · intro u hu
      constructor
      · unfold partialPage
        rw [if_neg (by omega), hu]
      · intro p
        have hm := addCoords_mem s.specs.rows s.specs.columns coords
          (lookupUsed s.used page) (by rw [hu]) p
        rw [hu] at hm
        exact hm
    · intro u e hu
      unfold partialPage
      rw [if_neg (by omega), hu]

/-- Witness for the amended C6: marking `(1, 1)` on the future page 1 of a
fresh 2-by-2 sheet succeeds and stores exactly that coordinate. -/
theorem claim_C6_amended_witness :
    (1 > sheet22.page_count ∧
      addCoords sheet22.specs.rows sheet22.specs.columns (lookupUsed sheet22.used 1)
        [(1, 1)] = ([(1, 1)], none)) ∧
    partialPage sheet22 1 [(1, 1)] =
      ({ sheet22 with used := setUsedEntry sheet22.used 1 [(1, 1)] }, none) :=
  ⟨⟨by with_unfolding_all decide, by with_unfolding_all decide⟩,
    (((claim_C6_amended sheet22 1 [(1, 1)]).2.2 (by with_unfolding_all decide)).1
      [(1, 1)] (by with_unfolding_all decide)).1⟩

set_option maxRecDepth 2000 in
/-- C6 counterexample: after a successful `partial_page(1, {(1, 1)})`, a
second call `partial_page(1, {(1, 2), (5, 1)})` fails on the out-of-range
row 5 — but because page 1 already has a registry entry, the in-place
mutation leaks the already-validated coordinate `(1, 2)` into the registry:
the consumed set is *not* left unchanged by the failed call. -/
theorem claim_C6_counterexample :
    calculate spec22 = (spec22Solved, none) ∧
      (partialPage sheet22 1 [(1, 1)]).2 = none ∧
      (partialPage ((partialPage sheet22 1 [(1, 1)]).1) 1 [(1, 2), (5, 1)]).2 =
        some (SheetError.invalidRow 5) ∧
      ((partialPage ((partialPage sheet22 1 [(1, 1)]).1) 1 [(1, 2), (5, 1)]).1).used ≠
        ((partialPage sheet22 1 [(1, 1)]).1).used ∧
      (1, 2) ∈ lookupUsed
        ((partialPage ((partialPage sheet22 1 [(1, 1)]).1) 1 [(1, 2), (5, 1)]).1).used 1 := by
  refine ⟨by with_unfolding_all decide, ?_, ?_, ?_, ?_⟩ <;> with_unfolding_all decide

set_option maxRecDepth 2000 in
/-- C5 counterexample: on the one-by-one grid of `specSquareSolved`, three
copies of one object go to pages 1, 2 and 3 at the *same* rectangle — the
renderer runs once and three placements exist, with no page filtering, but
the three rectangles are not pairwise distinct. -/
theorem claim_C5_counterexample :
    sheet11.pages_to_draw = none ∧
      (addLabel sheet11 7 3).renderLog = [7] ∧
      (placementList (addLabel sheet11 7 3)).length = 3 ∧
      (placementList (addLabel sheet11 7 3)).map (fun q => q.1) = [1, 2, 3] ∧
      (placementList (addLabel sheet11 7 3)).map (fun q => q.2.2) =
        [(9000 / 127, 9000 / 127), (9000 / 127, 9000 / 127), (9000 / 127, 9000 / 127)] ∧
      ¬ ((placementList (addLabel sheet11 7 3)).map (fun q => q.2.2)).Nodup := by
  have he : (placementList (addLabel sheet11 7 3)).map (fun q => q.2.2) =
      [(9000 / 127, 9000 / 127), (9000 / 127, 9000 / 127), (9000 / 127, 9000 / 127)] := by
    with_unfolding_all rfl
  refine ⟨rfl, ?_, ?_, ?_, he, ?_⟩
  · with_unfolding_all rfl
  · with_unfolding_all rfl
  · with_unfolding_all rfl
  · rw [he]
    exact fun hnd => (List.nodup_cons.mp hnd).1 (List.mem_cons_self _ _)

/-- The loop of `_next_unused_label` iterates at most `usedSize` times:
each iteration discards the mark it is standing on. -/
theorem nextUnusedLoopF_count {α : Type} :
    ∀ (fuel : ℕ) (s : SheetState α), (nextUnusedLoopF fuel s).2 ≤ usedSize s.used := by
  intro fuel
  induction fuel with
  | zero => intro s; exact Nat.zero_le _
  | succ f ih =>
    intro s
    unfold nextUnusedLoopF
    dsimp only
    split
    · rename_i hmem
      have h1 := ih (loopStep s)
      rw [loopStep_used] at h1
      have h2 := usedSize_discard_lt s.used s.page_count s.position hmem
      dsimp only
      omega
    · exact Nat.zero_le _

/-- The 1-by-1 sheet with the single slot of page 1 marked as used. -/
def sheet11used : SheetState ℕ := (partialPage sheet11 1 [(1, 1)]).1

/-- C7 (amended): `_next_unused_label` terminates — any fuel beyond the
number of registered marks computes the loop's true result — and performs
at most `usedSize + 1` raw `_next_label` advances: one initial advance plus
at most one advance per registered mark.  (The registry may mark slots on
many not-yet-started pages, so the per-page capacity `rows * columns` is
not a bound.) -/
theorem claim_C7_amended {α : Type} (s : SheetState α) :
    totalAdvances s ≤ usedSize s.used + 1 ∧
      ∀ fuel, usedSize s.used < fuel →
        nextUnusedLoopF fuel (nextLabel s) = nextUnusedLoop (nextLabel s) := by
  constructor
  · have h := nextUnusedLoopF_count (usedSize (nextLabel s).used + 1) (nextLabel s)
    unfold totalAdvances nextUnusedLoop
    rw [used_nextLabel] at h ⊢
    omega
  · intro fuel hf
    unfold nextUnusedLoop
    exact nextUnusedLoopF_irrel fuel _ (nextLabel s)
      (by rw [used_nextLabel]; omega) (by rw [used_nextLabel]; omega)

set_option maxRecDepth 2000 in
/-- Witness for the amended C7 on the marked 1-by-1 sheet: one registered
mark, so any fuel above 1 gives the loop's result. -/
theorem claim_C7_amended_witness :
    (totalAdvances sheet11used ≤ usedSize sheet11used.used + 1 ∧
      usedSize sheet11used.used < 2) ∧
      nextUnusedLoopF 2 (nextLabel sheet11used) = nextUnusedLoop (nextLabel sheet11used) :=
  ⟨⟨(claim_C7_amended sheet11used).1, by with_unfolding_all decide⟩,
    (claim_C7_amended sheet11used).2 2 (by with_unfolding_all decide)⟩

set_option maxRecDepth 2000 in
/-- C7 counterexample: on a 1-by-1 sheet (`rows * columns = 1`) whose
page-1 slot is marked used, one `_next_unused_label` call performs 2 raw
advances — the claimed worst case of `rows * columns` advances does not
bound the loop, because marks may sit on pages the cursor has not started
yet. -/
theorem claim_C7_counterexample :
    sheet11used.specs.rows * sheet11used.specs.columns = 1 ∧
      totalAdvances sheet11used = 2 := by
  refine ⟨?_, ?_⟩ <;> with_unfolding_all decide

theorem occs_addItem_ne {α : Type} [DecidableEq α] (x : α)
    (pages : List (List (ContentItem α))) (it : ContentItem α)
    (h : occPred x it = false) :
    ((addItem pages it).map (List.countP (occPred x))).sum =
      (pages.map (List.countP (occPred x))).sum := by
  cases pages with
  | nil => rfl
  | cons p ps =>
    rw [occs_addItem x (p :: ps) (by simp) it, h]
    simp

/-- Placing copies of one object never changes the placement count of a
different object. -/
theorem drawLoop_occs_ne {α : Type} [DecidableEq α] (x y : α) (h : y ≠ x) :
    ∀ (n : ℕ) (s : SheetState α), labelOccs (drawLoop s y n) x = labelOccs s x := by
  intro n
  induction n with
  | zero => intro s; rfl
  | succ k ih =>
    intro s
    unfold drawLoop
    dsimp only
    rw [ih]
    split
    · exact (nextUnusedLabel_spec x s).2.2.2.2.2.1
    · refine Eq.trans ?_ (nextUnusedLabel_spec x s).2.2.2.2.2.1
      unfold labelOccs
      dsimp only
      exact occs_addItem_ne x _ _ (by simp [occPred, h])

/-- `Sheet.add_label` in one equation set: renderer appended once, the
object's count up by `n`, page filter and page invariant preserved. -/
theorem drawLabel_spec {α : Type} [DecidableEq α] (x : α) (n : ℕ) (s : SheetState α)
    (hptd : s.pages_to_draw = none) (hwf : s.pages.length = s.page_count) :
    labelOccs (drawLabel s x n) x = labelOccs s x + n ∧
      (drawLabel s x n).pages.length = (drawLabel s x n).page_count ∧
      (drawLabel s x n).pages_to_draw = none ∧
      (drawLabel s x n).renderLog = s.renderLog ++ [x] := by
  have hD := drawLoop_spec x n ({ s with renderLog := s.renderLog ++ [x] }) hptd hwf
  exact ⟨hD.2.1, hD.2.2.1, hD.2.2.2.1, drawLoop_render x n _⟩

theorem drawLabel_occs_ne {α : Type} [DecidableEq α] (x y : α) (h : y ≠ x) (n : ℕ)
    (s : SheetState α) : labelOccs (drawLabel s y n) x = labelOccs s x := by
  unfold drawLabel
  exact drawLoop_occs_ne x y h n _

/-- C8: `add_labels` zips the objects with the counts sequence
shortest-first: with objects `[a, b, c]` and counts `[2, 1]` the call is
exactly `drawLabel a 2` then `drawLabel b 1` — `a` is placed twice, `b`
once, and `c` is neither rendered nor placed; exhausting the counts drops
the remaining objects without error.  A count of zero consumes its
position in the zip, invokes the renderer once, and produces no
placements. -/
theorem claim_C8_zip {α : Type} [DecidableEq α] (s : SheetState α) (a b c : α)
    (hptd : s.pages_to_draw = none) (hwf : WF s)
    (hab : a ≠ b) (hac : a ≠ c) (hbc : b ≠ c) :
    addLabels s [a, b, c] (.inr [2, 1]) = drawLabel (drawLabel s a 2) b 1 ∧
      (addLabels s [a, b, c] (.inr [2, 1])).renderLog = s.renderLog ++ [a] ++ [b] ∧
      labelOccs (addLabels s [a, b, c] (.inr [2, 1])) a = labelOccs s a + 2 ∧
      labelOccs (addLabels s [a, b, c] (.inr [2, 1])) b = labelOccs s b + 1 ∧
      labelOccs (addLabels s [a, b, c] (.inr [2, 1])) c = labelOccs s c ∧
      addLabels s [a] (.inr [0]) = drawLabel s a 0 ∧
      labelOccs (addLabels s [a] (.inr [0])) a = labelOccs s a ∧
      (addLabels s [a] (.inr [0])).renderLog = s.renderLog ++ [a] := by
  have t1 := drawLabel_spec a 2 s hptd hwf
  have t2 := drawLabel_spec b 1 (drawLabel s a 2) t1.2.2.1 t1.2.1
  have t0 := drawLabel_spec a 0 s hptd hwf
  have e3 : addLabels s [a, b, c] (.inr [2, 1]) = drawLabel (drawLabel s a 2) b 1 := rfl
  have e1 : addLabels s [a] (.inr [0]) = drawLabel s a 0 := rfl
  rw [e3, e1]
  refine ⟨rfl, ?_, ?_, ?_, ?_, rfl, ?_, ?_⟩
  · rw [t2.2.2.2, t1.2.2.2]
  · have o2 : labelOccs (drawLabel (drawLabel s a 2) b 1) a =
        labelOccs (drawLabel s a 2) a :=
      drawLabel_occs_ne a b (Ne.symm hab) 1 (drawLabel s a 2)
    rw [o2, t1.1]
  · have o1 : labelOccs (drawLabel s a 2) b = labelOccs s b :=
      drawLabel_occs_ne b a hab 2 s
    rw [t2.1, o1]
  · have o1 : labelOccs (drawLabel s a 2) c = labelOccs s c :=
      drawLabel_occs_ne c a hac 2 s
    have o2 : labelOccs (drawLabel (drawLabel s a 2) b 1) c =
        labelOccs (drawLabel s a 2) c :=
      drawLabel_occs_ne c b hbc 1 (drawLabel s a 2)
    rw [o2, o1]
  · exact t0.1.trans (Nat.add_zero _)
  · exact t0.2.2.2

/-- Witness for C8 on a concrete sheet with objects 1, 2, 3. -/
theorem claim_C8_zip_witness :
    ((sheet22.pages_to_draw = none ∧ WF sheet22) ∧
        (1 ≠ 2 ∧ (1 : ℕ) ≠ 3 ∧ (2 : ℕ) ≠ 3)) ∧
      (addLabels sheet22 [1, 2, 3] (.inr [2, 1]) = drawLabel (drawLabel sheet22 1 2) 2 1 ∧
        (addLabels sheet22 [1, 2, 3] (.inr [2, 1])).renderLog =
          sheet22.renderLog ++ [1] ++ [2] ∧
        labelOccs (addLabels sheet22 [1, 2, 3] (.inr [2, 1])) 1 = labelOccs sheet22 1 + 2 ∧
        labelOccs (addLabels sheet22 [1, 2, 3] (.inr [2, 1])) 2 = labelOccs sheet22 2 + 1 ∧
        labelOccs (addLabels sheet22 [1, 2, 3] (.inr [2, 1])) 3 = labelOccs sheet22 3 ∧
        addLabels sheet22 [1] (.inr [0]) = drawLabel sheet22 1 0 ∧
        labelOccs (addLabels sheet22 [1] (.inr [0])) 1 = labelOccs sheet22 1 ∧
        (addLabels sheet22 [1] (.inr [0])).renderLog = sheet22.renderLog ++ [1]) :=
  ⟨⟨⟨rfl, rfl⟩, by decide, by decide, by decide⟩,
    claim_C8_zip sheet22 1 2 3 rfl rfl (by decide) (by decide) (by decide)⟩

/-- C9: `Sheet.__init__` re-solves the caller's `Specification` and stores
a deep copy; the sheet's geometry — page size, label dimensions, and the
rectangle computed for any grid position — and every subsequent placement
or shading operation read only the copy, so mutating the caller's object
after construction changes nothing on the sheet's side. -/
theorem claim_C9_deepcopy {α : Type} (spec : SpecState) (ptd : Option (List ℕ))
    (b sm : Bool) (f : SpecState → SpecState) (x : α) (n : ℕ) (pos : ℤ × ℤ) :
    (mutateCaller (mkWorld spec ptd b sm : PyWorld α) f).sheet =
        (mkWorld spec ptd b sm : PyWorld α).sheet ∧
      (mutateCaller (mkWorld spec ptd b sm : PyWorld α) f).sheet.specs.sheet_width =
        (calculate spec).1.sheet_width ∧
      (mutateCaller (mkWorld spec ptd b sm : PyWorld α) f).sheet.specs.sheet_height =
        (calculate spec).1.sheet_height ∧
      (mutateCaller (mkWorld spec ptd b sm : PyWorld α) f).sheet.specs.label_width =
        (calculate spec).1.label_width ∧
      (mutateCaller (mkWorld spec ptd b sm : PyWorld α) f).sheet.specs.label_height =
        (calculate spec).1.label_height ∧
      edgesAt (mutateCaller (mkWorld spec ptd b sm : PyWorld α) f).sheet.specs pos =
        edgesAt (mkWorld spec ptd b sm : PyWorld α).sheet.specs pos ∧
      addLabel (mutateCaller (mkWorld spec ptd b sm : PyWorld α) f).sheet x n =
        addLabel (mkWorld spec ptd b sm : PyWorld α).sheet x n ∧
      shadeMissingLabel (mutateCaller (mkWorld spec ptd b sm : PyWorld α) f).sheet =
        shadeMissingLabel (mkWorld spec ptd b sm : PyWorld α).sheet :=
  ⟨rfl, rfl, rfl, rfl, rfl, rfl, rfl, rfl⟩

theorem addItem_getLast? {α : Type} :
    ∀ (pages : List (List (ContentItem α))) (it : ContentItem α),
      (addItem pages it).getLast? = pages.getLast?.map (fun p => p ++ [it]) := by
  intro pages
  induction pages with
  | nil => intro it; rfl
  | cons q qs ih =>
    intro it
    cases qs with
    | nil => simp [addItem]
    | cons r rs =>
      have h1 : addItem (q :: r :: rs) it = q :: addItem (r :: rs) it := rfl
      have h2 : addItem (r :: rs) it ≠ [] := by
        intro hc
        have h3 := addItem_length (r :: rs) it
        rw [hc] at h3
        simp at h3
      obtain ⟨x, xs, hx⟩ := List.exists_cons_of_ne_nil h2
      rw [h1, hx, List.getLast?_cons_cons, ← hx, ih it, List.getLast?_cons_cons]

theorem currentShadeCount_position {α : Type} (s : SheetState α) (p : ℤ × ℤ) :
    currentShadeCount ({ s with position := p }) = currentShadeCount s := rfl

theorem currentShadeCount_shadeMissingLabel {α : Type} (s : SheetState α)
    (h : s.pages ≠ []) :
    currentShadeCount (shadeMissingLabel s) = currentShadeCount s + 1 := by
  unfold currentShadeCount shadeMissingLabel
  dsimp only
  rw [addItem_getLast?]
  cases hl : s.pages.getLast? with
  | none => exact absurd (List.getLast?_eq_none_iff.mp hl) h
  | some p =>
    dsimp only [Option.map]
    rw [List.countP_append]
    simp [isShade]

/-- `_shade_remaining_missing`'s iteration: one shading shape lands on the
current (last) page per listed position; the registry, page cursor and
options are untouched. -/
theorem shadePositions_spec {α : Type} :
    ∀ (ps : List (ℤ × ℤ)) (s : SheetState α), s.pages ≠ [] →
      currentShadeCount (shadePositions s ps) = currentShadeCount s + ps.length ∧
      (shadePositions s ps).used = s.used ∧
      (shadePositions s ps).page_count = s.page_count ∧
      (shadePositions s ps).shade_missing = s.shade_missing ∧
      (shadePositions s ps).pages.length = s.pages.length := by
  intro ps
  induction ps with
  | nil =>
    intro s h
    exact ⟨by simp [shadePositions], rfl, rfl, rfl, rfl⟩
  | cons p ps ih =>
    intro s h
    unfold shadePositions
    have hlen : (shadeMissingLabel { s with position := p }).pages.length =
        s.pages.length := shadeMissingLabel_pages_length _
    have h1 : (shadeMissingLabel { s with position := p }).pages ≠ [] := by
      intro hc
      rw [hc] at hlen
      exact h (List.eq_nil_of_length_eq_zero hlen.symm)
    obtain ⟨c1, c2, c3, c4, c5⟩ := ih (shadeMissingLabel { s with position := p }) h1
    refine ⟨?_, c2, c3, c4, c5.trans hlen⟩
    rw [c1, currentShadeCount_shadeMissingLabel ({ s with position := p }) h,
      currentShadeCount_position]
    simp only [List.length_cons]
    omega

/-- The state effect of one `save` on a shading sheet. -/
theorem save_spec {α : Type} (s : SheetState α) (hsm : s.shade_missing = true)
    (hne : s.pages ≠ []) :
    currentShadeCount (save s) =
        currentShadeCount s + (lookupUsed s.used s.page_count).length ∧
      (save s).used = s.used ∧
      (save s).page_count = s.page_count ∧
      (save s).shade_missing = s.shade_missing ∧
      (save s).pages.length = s.pages.length := by
  unfold save shadeRemainingMissing
  rw [if_pos hsm]
  exact shadePositions_spec _ s hne

/-- C10: the end-of-run shading sweep of `save` / `preview` /
`preview_string` walks the final page's still-marked slots without removing
them from the registry, adding one shading shape per such slot to that
page each time; hence iterating `save` `n` times adds `n` shapes per slot —
the sweep is not idempotent on page content. -/
theorem claim_C10_shade_sweep {α : Type} (s : SheetState α)
    (hsm : s.shade_missing = true) (hne : s.pages ≠ []) :
    (currentShadeCount (save s) =
        currentShadeCount s + (lookupUsed s.used s.page_count).length ∧
      (save s).used = s.used ∧
      (save s).page_count = s.page_count) ∧
    (∀ page, 1 ≤ page → page ≤ s.page_count → preview s page = (save s, none)) ∧
    (∀ n, currentShadeCount (save^[n] s) =
      currentShadeCount s + n * (lookupUsed s.used s.page_count).length) := by
  have main : ∀ n, currentShadeCount (save^[n] s) =
      currentShadeCount s + n * (lookupUsed s.used s.page_count).length ∧
      (save^[n] s).used = s.used ∧
      (save^[n] s).page_count = s.page_count ∧
      (save^[n] s).shade_missing = true ∧
      (save^[n] s).pages.length = s.pages.length := by
    intro n
    induction n with
    | zero => exact ⟨by simp, rfl, rfl, hsm, rfl⟩
    | succ k ihk =>
      obtain ⟨i1, i2, i3, i4, i5⟩ := ihk
      have hnek : (save^[k] s).pages ≠ [] := by
        intro hc
        rw [hc] at i5
        exact hne (List.eq_nil_of_length_eq_zero i5.symm)
      have hs := save_spec (save^[k] s) i4 hnek
      rw [i2, i3] at hs
      rw [Function.iterate_succ_apply']
      refine ⟨?_, hs.2.1, hs.2.2.1, hs.2.2.2.1.trans i4,
        hs.2.2.2.2.trans i5⟩
      rw [hs.1, i1]
      ring
  have hs1 := save_spec s hsm hne
  refine ⟨⟨hs1.1, hs1.2.1, hs1.2.2.1⟩, ?_, fun n => (main n).1⟩
  intro page hp1 hp2
  unfold preview
  rw [if_neg (by omega)]
  rfl

/-- A 2-by-2 shading sheet whose page 1 was partially marked at `(2, 2)`
and then received one label: the mark stays in the registry while page 1
is current. -/
def sheetC10 : SheetState ℕ :=
  addLabel ((partialPage (mkSheetState spec22Solved none false true) 1 [(2, 2)]).1) 9 1

set_option maxRecDepth 4000 in
/-- Witness for C10: on `sheetC10`, one marked slot remains on the current
page, so each `save` adds one shading shape and two `save`s add two. -/
theorem claim_C10_shade_sweep_witness :
    (sheetC10.shade_missing = true ∧ sheetC10.pages ≠ [] ∧
        1 ≤ sheetC10.page_count) ∧
      (currentShadeCount (save sheetC10) =
          currentShadeCount sheetC10 + (lookupUsed sheetC10.used sheetC10.page_count).length ∧
        (save sheetC10).used = sheetC10.used ∧
        (save sheetC10).page_count = sheetC10.page_count) ∧
      preview sheetC10 1 = (save sheetC10, none) ∧
      currentShadeCount (save^[2] sheetC10) =
        currentShadeCount sheetC10 + 2 * (lookupUsed sheetC10.used sheetC10.page_count).length :=
  ⟨⟨by with_unfolding_all decide, by with_unfolding_all decide,
      by with_unfolding_all decide⟩,
    (claim_C10_shade_sweep sheetC10 (by with_unfolding_all decide)
      (by with_unfolding_all decide)).1,
    (claim_C10_shade_sweep sheetC10 (by with_unfolding_all decide)
      (by with_unfolding_all decide)).2.1 1 (by decide) (by with_unfolding_all decide),
    (claim_C10_shade_sweep sheetC10 (by with_unfolding_all decide)
      (by with_unfolding_all decide)).2.2 2⟩

end Pylabels
